import Mathlib

/-!
# Verification of the block-parliament accounting core

A shallow embedding, in Lean 4, of the accounting and reconciliation engine of
the `block-parliament` repository (crates `validator-accounting` and `bp-web`),
together with theorems settling the specification claims about it.

Conventions of the embedding:
* Rust `f64` money amounts are modelled as `ℚ` (exact arithmetic); the claims
  under study are about the algorithms (min/subtraction identities, orderings,
  partitions), not about binary floating-point rounding.
* Rust `u64`/`u32`/`usize` are modelled as `ℕ` with explicit sentinel
  constants (`U64_MAX`) where the code uses `u64::MAX`.
* `Option<String>` dates stay `Option String`; `chrono::NaiveDate` is modelled
  by `NDate` below, and `NaiveDate::parse_from_str(s, "%Y-%m-%d")` by
  `parseDate` (four-digit year, 1-2 digit month/day, real calendar
  validation; negative years are out of scope of the data).
* `HashMap<String, f64>` price caches are modelled as association lists
  `List (String × ℚ)`: lookup is first-match, iteration order is list order
  (the Rust iteration order is unspecified; every claim proved here is
  insensitive to it or quantifies over it).
* Presentation-only `label`/`sublabel` strings of timeline events are omitted
  from the event record; all fields the claims mention are kept.
-/

namespace BlockParliament

/-! ## Calendar dates (model of `chrono::NaiveDate`) -/

/-- A calendar date `year-month-day` (proleptic Gregorian, non-negative year). -/
structure NDate where
  year : ℕ
  month : ℕ
  day : ℕ
deriving DecidableEq, Repr

/-- Gregorian leap-year test, as in `timeline.rs::days_in_month`. -/
def isLeapYear (y : ℕ) : Bool :=
  (y % 4 == 0 && y % 100 != 0) || (y % 400 == 0)

/-- Days in a month, translated from `bp-web/src/financials/timeline.rs::days_in_month`
(the `_ => 30` default arm included). -/
def daysInMonth (y : ℕ) (m : ℕ) : ℕ :=
  match m with
  | 1 | 3 | 5 | 7 | 8 | 10 | 12 => 31
  | 4 | 6 | 9 | 11 => 30
  | 2 => if isLeapYear y then 29 else 28
  | _ => 30

/-- `1` in a leap year, else `0`. -/
def leapBit (y : ℕ) : ℕ := if isLeapYear y then 1 else 0

/-- Days elapsed in year `y` before the first day of month `m` (for `1 ≤ m ≤ 12`). -/
def daysBeforeMonth (y m : ℕ) : ℕ :=
  match m with
  | 0 => 0
  | 1 => 0
  | 2 => 31
  | 3 => 59 + leapBit y
  | 4 => 90 + leapBit y
  | 5 => 120 + leapBit y
  | 6 => 151 + leapBit y
  | 7 => 181 + leapBit y
  | 8 => 212 + leapBit y
  | 9 => 243 + leapBit y
  | 10 => 273 + leapBit y
  | 11 => 304 + leapBit y
  | _ => 334 + leapBit y

/-- Number of leap years among `0, 1, …, y-1` (proleptic Gregorian; year 0 is leap). -/
def leapsBefore (y : ℕ) : ℕ :=
  if y = 0 then 0 else ((y - 1) / 4 - (y - 1) / 100 + (y - 1) / 400) + 1

/-- Linear day count of a date: differences of `dayNumber` agree with
`chrono`'s `(a - b).num_days()` for valid dates. -/
def dayNumber (d : NDate) : ℕ :=
  365 * d.year + leapsBefore d.year + daysBeforeMonth d.year d.month + (d.day - 1)

/-- Numeric value of a decimal digit character. -/
def digitVal (c : Char) : ℕ := c.toNat - 48

/-- Decimal value of a digit string. -/
def digitsToNat (l : List Char) : ℕ :=
  l.foldl (fun n c => 10 * n + digitVal c) 0

/-- All characters are ASCII digits. -/
def allDigits (l : List Char) : Bool := l.all (·.isDigit)

/-- Model of `NaiveDate::parse_from_str(s, "%Y-%m-%d")`: a four-digit year,
one/two-digit month and day separated by `-`, validated against the real
calendar.  Anything else (including the `"unknown"` sentinel) is `none`. -/
def parseDate (s : String) : Option NDate :=
  match s.data.splitOn '-' with
  | [ys, ms, ds] =>
    if ys.length = 4 && (1 ≤ ms.length && ms.length ≤ 2)
        && (1 ≤ ds.length && ds.length ≤ 2)
        && allDigits ys && allDigits ms && allDigits ds then
      if 1 ≤ digitsToNat ms && digitsToNat ms ≤ 12 && 1 ≤ digitsToNat ds
          && digitsToNat ds ≤ daysInMonth (digitsToNat ys) (digitsToNat ms) then
        some ⟨digitsToNat ys, digitsToNat ms, digitsToNat ds⟩
      else none
    else none
  | _ => none

/-! Bounds on parsed dates, needed to justify the `i64::MAX` sentinel in the
price resolver. -/

theorem digitsToNat_aux_lt (l : List Char) (h : allDigits l = true) :
    ∀ n : ℕ, l.foldl (fun n c => 10 * n + digitVal c) n < (n + 1) * 10 ^ l.length := by
  induction l with
  | nil => intro n; simp
  | cons c cs ih =>
    intro n
    simp only [allDigits, List.all_cons, Bool.and_eq_true] at h
    have hc : digitVal c ≤ 9 := by
      have h1 := h.1
      simp only [Char.isDigit, Bool.and_eq_true, decide_eq_true_eq] at h1
      have h2 : c.val.toNat ≤ 57 := UInt32.toNat_le_of_le (by norm_num) h1.2
      simp only [digitVal, Char.toNat]
      omega
    have := ih (by simpa [allDigits] using h.2) (10 * n + digitVal c)
    simp only [List.foldl_cons, List.length_cons]
    calc List.foldl (fun n c => 10 * n + digitVal c) (10 * n + digitVal c) cs
        < (10 * n + digitVal c + 1) * 10 ^ cs.length := this
      _ ≤ (n + 1) * 10 ^ (cs.length + 1) := by
          have : 10 * n + digitVal c + 1 ≤ (n + 1) * 10 := by omega
          calc (10 * n + digitVal c + 1) * 10 ^ cs.length
              ≤ ((n + 1) * 10) * 10 ^ cs.length := Nat.mul_le_mul_right _ this
            _ = (n + 1) * 10 ^ (cs.length + 1) := by ring

theorem digitsToNat_lt (l : List Char) (h : allDigits l = true) :
    digitsToNat l < 10 ^ l.length := by
  have := digitsToNat_aux_lt l h 0
  simpa [digitsToNat] using this

theorem leapsBefore_le (y : ℕ) : leapsBefore y ≤ y := by
  unfold leapsBefore
  split
  · omega
  · omega

theorem daysBeforeMonth_le (y m : ℕ) : daysBeforeMonth y m ≤ 335 := by
  have hl : leapBit y ≤ 1 := by unfold leapBit; split <;> omega
  rcases m with _ | _ | _ | _ | _ | _ | _ | _ | _ | _ | _ | _ | m <;>
    simp [daysBeforeMonth] <;> omega

theorem daysInMonth_le (y m : ℕ) : daysInMonth y m ≤ 31 := by
  rcases m with _ | _ | _ | _ | _ | _ | _ | _ | _ | _ | _ | _ | m <;>
    simp [daysInMonth] <;> split <;> omega

theorem parseDate_bounds (s : String) (d : NDate) (h : parseDate s = some d) :
    d.year < 10000 ∧ d.day ≤ 31 := by
  unfold parseDate at h
  split at h
  case h_2 => exact absurd h (by simp)
  case h_1 ys ms ds heq =>
    split at h
    case isFalse => exact absurd h (by simp)
    case isTrue hb =>
      simp only [Bool.and_eq_true, decide_eq_true_eq] at hb
      split at h
      case isFalse => exact absurd h (by simp)
      case isTrue hv =>
        simp only [Bool.and_eq_true, decide_eq_true_eq] at hv
        have hy : digitsToNat ys < 10 ^ ys.length := digitsToNat_lt ys (by tauto)
        obtain ⟨⟨⟨⟨⟨h4, _⟩, _⟩, _⟩, _⟩, _⟩ := hb
        rw [h4] at hy
        have hdm := daysInMonth_le (digitsToNat ys) (digitsToNat ms)
        obtain ⟨rfl⟩ := h
        refine ⟨by simpa using hy, ?_⟩
        simp only []
        omega

theorem dayNumber_lt (d : NDate) (h : d.year < 10000) (h2 : d.day ≤ 31) :
    dayNumber d < 4000000 := by
  have h1 := leapsBefore_le d.year
  have h3 := daysBeforeMonth_le d.year d.month
  unfold dayNumber
  omega

/-! ## SFDP coverage schedule (claim C5)

Translated from `validator-accounting/src/config.rs::Config::sfdp_coverage_percent`
and the identical standalone `bp-web/src/financials/timeline.rs::sfdp_coverage_percent`. -/

/-- Month difference used by the coverage schedule:
`12*(query.year - acceptance.year) + (query.month - acceptance.month)`. -/
def monthsDiff (acceptance date : NDate) : ℤ :=
  ((date.year : ℤ) - (acceptance.year : ℤ)) * 12
    + ((date.month : ℤ) - (acceptance.month : ℤ))

/-- Translation of the standalone
`timeline.rs::sfdp_coverage_percent(acceptance_str, date)`. -/
def sfdpCoveragePercentStr (acceptanceStr : String) (date : NDate) : ℚ :=
  match parseDate acceptanceStr with
  | none => 0
  | some acceptance =>
    let md := monthsDiff acceptance date
    if md < 0 then 0
    else if md < 3 then 1
    else if md < 6 then 0.75
    else if md < 9 then 0.50
    else if md < 12 then 0.25
    else 0

/-- Translation of `config.rs::Config::sfdp_coverage_percent` (acceptance date
optional: absent means "not enrolled"). -/
def sfdpCoveragePercent (sfdpAcceptanceDate : Option String) (date : NDate) : ℚ :=
  match sfdpAcceptanceDate with
  | none => 0
  | some s => sfdpCoveragePercentStr s date

/-- The step function the specification describes, written from the spec's
words ("1.0 for months in [0,3), 0.75 for [3,6), 0.50 for [6,9),
0.25 for [9,12), 0.0 otherwise including negative months"). -/
def coverageStepSpec (months : ℤ) : ℚ :=
  if 0 ≤ months ∧ months < 3 then 1
  else if 3 ≤ months ∧ months < 6 then 0.75
  else if 6 ≤ months ∧ months < 9 then 0.50
  else if 9 ≤ months ∧ months < 12 then 0.25
  else 0

theorem sfdpCoverageStr_eq_step (s : String) (a d : NDate)
    (h : parseDate s = some a) :
    sfdpCoveragePercentStr s d = coverageStepSpec (monthsDiff a d) := by
  unfold sfdpCoveragePercentStr coverageStepSpec
  rw [h]
  rcases lt_trichotomy (monthsDiff a d) 0 with hlt | heq | hgt <;>
    simp only [] <;> split_ifs <;> first | rfl | omega

/-- C5 (amended): the SFDP coverage function is exactly the five-plateau step
function of `months = 12*(query.year-acceptance.year)+(query.month-acceptance.month)`;
a missing acceptance date gives 0 and an unparsable acceptance date gives 0
without error; the result is always one of the five plateau values; and the
schedule is monotonically non-increasing in months restricted to `0 ≤ months`
(on all of ℤ it is not: it jumps from 0 to 1 at acceptance). -/
theorem C5_coverage_schedule :
    (∀ d : NDate, sfdpCoveragePercent none d = 0) ∧
    (∀ s d, parseDate s = none → sfdpCoveragePercent (some s) d = 0) ∧
    (∀ s a d, parseDate s = some a →
      sfdpCoveragePercent (some s) d = coverageStepSpec (monthsDiff a d)) ∧
    (∀ o d, sfdpCoveragePercent o d ∈ ({1, 0.75, 0.50, 0.25, 0} : Set ℚ)) ∧
    (∀ s a d₁ d₂, parseDate s = some a → 0 ≤ monthsDiff a d₁ →
      monthsDiff a d₁ ≤ monthsDiff a d₂ →
      sfdpCoveragePercent (some s) d₂ ≤ sfdpCoveragePercent (some s) d₁) := by
  refine ⟨fun d => rfl, ?_, ?_, ?_, ?_⟩
  · intro s d h
    simp [sfdpCoveragePercent, sfdpCoveragePercentStr, h]
  · intro s a d h
    exact sfdpCoverageStr_eq_step s a d h
  · intro o d
    rcases o with _ | s
    · simp [sfdpCoveragePercent]
    · rcases hp : parseDate s with _ | a
      · simp [sfdpCoveragePercent, sfdpCoveragePercentStr, hp]
      · rw [show sfdpCoveragePercent (some s) d = sfdpCoveragePercentStr s d from rfl,
          sfdpCoverageStr_eq_step s a d hp]
        unfold coverageStepSpec
        split_ifs <;> simp
  · intro s a d₁ d₂ h h1 h2
    show sfdpCoveragePercentStr s d₂ ≤ sfdpCoveragePercentStr s d₁
    rw [sfdpCoverageStr_eq_step s a d₁ h, sfdpCoverageStr_eq_step s a d₂ h]
    unfold coverageStepSpec
    split_ifs <;> first | omega | norm_num

/-- C5 counterexample: as stated the claim is false, because coverage is not
monotonically non-increasing over all month differences: one month before
acceptance (months = -1) the coverage is 0, at acceptance (months = 0) it is 1. -/
theorem C5_counterexample :
    parseDate "2025-12-01" = some ⟨2025, 12, 1⟩ ∧
    monthsDiff ⟨2025, 12, 1⟩ ⟨2025, 11, 15⟩ = -1 ∧
    monthsDiff ⟨2025, 12, 1⟩ ⟨2025, 12, 15⟩ = 0 ∧
    sfdpCoveragePercent (some "2025-12-01") ⟨2025, 11, 15⟩ = 0 ∧
    sfdpCoveragePercent (some "2025-12-01") ⟨2025, 12, 15⟩ = 1 ∧
    ¬ (sfdpCoveragePercent (some "2025-12-01") ⟨2025, 12, 15⟩
        ≤ sfdpCoveragePercent (some "2025-12-01") ⟨2025, 11, 15⟩) := by
  refine ⟨by decide, by decide, by decide, by decide, by decide, by decide⟩

/-- C5 witness: the spec's own scenarios, obtained from `C5_coverage_schedule`
with every hypothesis discharged at concrete input: acceptance `2025-12-01`,
query `2026-03-15` (month 3) has coverage `0.75`, and coverage at month 9 is
at most coverage at month 3. -/
theorem C5_coverage_schedule_witness :
    sfdpCoveragePercent (some "2025-12-01") ⟨2026, 3, 15⟩
        = coverageStepSpec (monthsDiff ⟨2025, 12, 1⟩ ⟨2026, 3, 15⟩) ∧
    sfdpCoveragePercent (some "2025-12-01") ⟨2026, 9, 15⟩
        ≤ sfdpCoveragePercent (some "2025-12-01") ⟨2026, 3, 15⟩ := by
  refine ⟨C5_coverage_schedule.2.2.1 "2025-12-01" ⟨2025, 12, 1⟩ ⟨2026, 3, 15⟩ (by decide),
    C5_coverage_schedule.2.2.2.2 "2025-12-01" ⟨2025, 12, 1⟩ ⟨2026, 3, 15⟩ ⟨2026, 9, 15⟩
      (by decide) (by decide) (by decide)⟩

/-! ## Price resolver (claim C7)

Translated from `bp-web/src/financials/types.rs::get_price`
(`validator-accounting/src/prices.rs::get_price` is the same algorithm with the
fallback constant drawn from a `constants` module that is not part of the
sources; the bp-web constant is 170.0).  The `HashMap` cache is modelled as an
association list: lookup is first-match and iteration order is list order. -/

/-- Fallback price when the date is missing from the cache (`FALLBACK_PRICE`). -/
def FALLBACK_PRICE : ℚ := 170

/-- The `i64::MAX` sentinel used to initialize `closest_diff`. -/
def I64_MAX : ℤ := 9223372036854775807

/-- Model of `HashMap::get`: first entry with an equal key. -/
def lookupPrice (prices : List (String × ℚ)) (date : String) : Option ℚ :=
  (prices.find? (fun e => e.1 == date)).map (·.2)

/-- Absolute day distance between two dates (`(target - cached).num_days().abs()`). -/
def dateDist (t c : NDate) : ℤ := |(dayNumber t : ℤ) - (dayNumber c : ℤ)|

/-- One step of the closest-date scan: keep the cached entry if it parses and
is strictly closer than the best seen so far. -/
def closestStep (t : NDate) (acc : ℚ × ℤ) (e : String × ℚ) : ℚ × ℤ :=
  match parseDate e.1 with
  | some cd => if dateDist t cd < acc.2 then (e.2, dateDist t cd) else acc
  | none => acc

/-- Translation of `types.rs::get_price`: exact match, else nearest parseable
cached date, else the fallback constant. -/
def getPrice (prices : List (String × ℚ)) (date : String) : ℚ :=
  match lookupPrice prices date with
  | some p => p
  | none =>
    match parseDate date with
    | some target => (prices.foldl (closestStep target) (FALLBACK_PRICE, I64_MAX)).1
    | none => FALLBACK_PRICE

theorem closest_fold_spec (t : NDate) (l : List (String × ℚ)) (acc : ℚ × ℤ) :
    (l.foldl (closestStep t) acc = acc ∨
      ∃ e ∈ l, ∃ cd, parseDate e.1 = some cd ∧
        l.foldl (closestStep t) acc = (e.2, dateDist t cd)) ∧
    (l.foldl (closestStep t) acc).2 ≤ acc.2 ∧
    (∀ e ∈ l, ∀ cd, parseDate e.1 = some cd →
      (l.foldl (closestStep t) acc).2 ≤ dateDist t cd) := by
  induction l generalizing acc with
  | nil => simp
  | cons e rest ih =>
    simp only [List.foldl_cons]
    have step : closestStep t acc e = acc ∨
        ∃ cd, parseDate e.1 = some cd ∧ closestStep t acc e = (e.2, dateDist t cd)
          ∧ dateDist t cd < acc.2 := by
      unfold closestStep
      rcases hp : parseDate e.1 with _ | cd
      · left; rfl
      · by_cases hd : dateDist t cd < acc.2
        · right; exact ⟨cd, rfl, by simp [hd], hd⟩
        · left; simp [hd]
    have hstep2 : (closestStep t acc e).2 ≤ acc.2 := by
      rcases step with h | ⟨cd, _, h2, h3⟩
      · rw [h]
      · rw [h2]; exact le_of_lt h3
    have hstephead : ∀ cd, parseDate e.1 = some cd →
        (closestStep t acc e).2 ≤ dateDist t cd := by
      intro cd hcd
      unfold closestStep
      rw [hcd]
      by_cases hd : dateDist t cd < acc.2
      · simp [hd]
      · simp [hd]; omega
    obtain ⟨ih1, ih2, ih3⟩ := ih (closestStep t acc e)
    refine ⟨?_, le_trans ih2 hstep2, ?_⟩
    · rcases ih1 with h | ⟨e', he', cd', hp', hr⟩
      · rw [h]
        rcases step with h2 | ⟨cd, hp2, h2, _⟩
        · left; exact h2
        · right; exact ⟨e, List.mem_cons_self e rest, cd, hp2, h2⟩
      · right; exact ⟨e', List.mem_cons_of_mem e he', cd', hp', hr⟩
    · intro e' he' cd' hp'
      rcases List.mem_cons.mp he' with rfl | hmem
      · exact le_trans ih2 (hstephead cd' hp')
      · exact ih3 e' hmem cd' hp'

theorem dateDist_lt_of_parsed (s s' : String) (d d' : NDate)
    (h : parseDate s = some d) (h' : parseDate s' = some d') :
    dateDist d d' < 4000000 := by
  obtain ⟨hy, hd⟩ := parseDate_bounds s d h
  obtain ⟨hy', hd'⟩ := parseDate_bounds s' d' h'
  have b1 := dayNumber_lt d hy hd
  have b2 := dayNumber_lt d' hy' hd'
  rw [dateDist, abs_lt]
  constructor <;> [skip; skip] <;> omega

/-- C7: the price resolver is total; an exact key match returns the mapped
value; otherwise, if the query parses and some cached date parses, the result
is the price of a cached date at minimum absolute day-distance; an unparsable
query or a cache with no parseable dates falls back to the fixed constant. -/
theorem C7_price_resolver :
    (∀ prices date p, lookupPrice prices date = some p → getPrice prices date = p) ∧
    (∀ prices date t, lookupPrice prices date = none → parseDate date = some t →
      (∃ e ∈ prices, (parseDate e.1).isSome) →
      ∃ e ∈ prices, ∃ cd, parseDate e.1 = some cd ∧ getPrice prices date = e.2 ∧
        ∀ e' ∈ prices, ∀ cd', parseDate e'.1 = some cd' → dateDist t cd ≤ dateDist t cd') ∧
    (∀ prices date, lookupPrice prices date = none → parseDate date = none →
      getPrice prices date = FALLBACK_PRICE) ∧
    (∀ prices date, lookupPrice prices date = none →
      (∀ e ∈ prices, parseDate e.1 = none) → getPrice prices date = FALLBACK_PRICE) := by
  refine ⟨?_, ?_, ?_, ?_⟩
  · intro prices date p h
    simp [getPrice, h]
  · intro prices date t hl hq ⟨e0, he0, hps⟩
    rcases hcd0 : parseDate e0.1 with _ | cd0
    · rw [hcd0] at hps; simp at hps
    obtain ⟨f1, f2, f3⟩ := closest_fold_spec t prices (FALLBACK_PRICE, I64_MAX)
    have hb : dateDist t cd0 < I64_MAX := by
      have := dateDist_lt_of_parsed date e0.1 t cd0 hq hcd0
      unfold I64_MAX
      omega
    have hlt : (prices.foldl (closestStep t) (FALLBACK_PRICE, I64_MAX)).2 < I64_MAX :=
      lt_of_le_of_lt (f3 e0 he0 cd0 hcd0) hb
    rcases f1 with hacc | ⟨e, he, cd, hcd, hr⟩
    · rw [hacc] at hlt; simp at hlt
    · refine ⟨e, he, cd, hcd, ?_, ?_⟩
      · simp only [getPrice, hl, hq]
        rw [hr]
      · intro e' he' cd' hcd'
        have := f3 e' he' cd' hcd'
        rw [hr] at this
        exact this
  · intro prices date hl hq
    simp [getPrice, hl, hq]
  · intro prices date hl hall
    simp only [getPrice, hl]
    rcases hq : parseDate date with _ | t
    · rfl
    · obtain ⟨f1, _, _⟩ := closest_fold_spec t prices (FALLBACK_PRICE, I64_MAX)
      rcases f1 with hacc | ⟨e, he, cd, hcd, _⟩
      · show (prices.foldl (closestStep t) (FALLBACK_PRICE, I64_MAX)).1 = FALLBACK_PRICE
        rw [hacc]
      · rw [hall e he] at hcd; simp at hcd

/-- C7 witness: `C7_price_resolver` applied at a concrete cache: an exact hit
returns the mapped price, and a miss on `2025-01-04` resolves to the entry at
minimum day-distance. -/
theorem C7_price_resolver_witness :
    getPrice [("2025-01-01", 100), ("2025-01-10", 110)] "2025-01-01" = 100 ∧
    (∃ e ∈ [(("2025-01-01" : String), (100 : ℚ)), ("2025-01-10", 110)], ∃ cd,
      parseDate e.1 = some cd ∧
      getPrice [("2025-01-01", 100), ("2025-01-10", 110)] "2025-01-04" = e.2 ∧
      ∀ e' ∈ [(("2025-01-01" : String), (100 : ℚ)), ("2025-01-10", 110)], ∀ cd',
        parseDate e'.1 = some cd' → dateDist ⟨2025, 1, 4⟩ cd ≤ dateDist ⟨2025, 1, 4⟩ cd') := by
  refine ⟨C7_price_resolver.1 _ _ _ (by decide), ?_⟩
  exact C7_price_resolver.2.1 _ _ ⟨2025, 1, 4⟩ (by decide) (by decide) (by decide)

/-! ## Withdrawal FIFO capital/revenue split (claims C1, C2, C10)

Translated from `validator-accounting/src/tax_report.rs::add_withdrawal_rows`
and `matches_year`.  (`bp-web/src/financials/timeline.rs::add_withdrawal_rows`
is the same loop with the year filter absent, i.e. the `yearFilter = none`
case below.) -/

/-- Model of `transactions.rs`/`types.rs` `SolTransfer` (string addresses). -/
structure SolTransfer where
  signature : String
  date : Option String
  fromAddress : String
  toAddress : String
  amountSol : ℚ
  fromLabel : String
  toLabel : String
deriving DecidableEq, Repr

/-- Model of the `TaxRow` record. -/
structure TaxRow where
  date : String
  entryType : String
  category : String
  description : String
  solAmount : Option ℚ
  solPriceUsd : Option ℚ
  usdValue : ℚ
  destination : String
  txSignature : String
deriving DecidableEq, Repr

/-- Translation of `tax_report.rs::shorten_pubkey`. -/
def shortenPubkey (addr : String) : String :=
  if addr.length > 12 then
    addr.take 6 ++ "..." ++ addr.drop (addr.length - 4)
  else addr

/-- Destination label of a withdrawal row (`to_label`, or shortened pubkey). -/
def destLabel (w : SolTransfer) : String :=
  if w.toLabel = "" then shortenPubkey w.toAddress else w.toLabel

/-- Translation of `tax_report.rs::matches_year` (the `skipped` counter is a
logging side effect and is not modelled). -/
def matchesYear (date : String) (yearFilter : Option ℤ) : Bool :=
  if date = "unknown" || (parseDate date).isNone then yearFilter.isNone
  else
    match yearFilter with
    | none => true
    | some y =>
      match parseDate date with
      | some d => (d.year : ℤ) == y
      | none => false

/-- Rust `Option::cmp` on optional date strings: `None` is less than `Some`,
two `Some`s compare lexicographically. -/
def optDateCmp (a b : Option String) : Ordering :=
  match a, b with
  | none, none => .eq
  | none, some _ => .lt
  | some _, none => .gt
  | some x, some y => if x < y then .lt else if x = y then .eq else .gt

/-- `a.date.cmp(&b.date) != Greater`: the (total, stable) order used by
`sorted.sort_by(|a, b| a.date.cmp(&b.date))`. -/
def optDateLe (a b : Option String) : Bool := optDateCmp a b != Ordering.gt

/-- The chronological sort of the withdrawal slice (a stable sort by the
optional date, as `slice::sort_by`). -/
def sortWithdrawals (ws : List SolTransfer) : List SolTransfer :=
  ws.mergeSort (fun a b => optDateLe a.date b.date)

/-- The body of the `for w in sorted` loop of `add_withdrawal_rows`: consume
capital first (always), then emit rows only when the year filter matches. -/
def wdRows (prices : List (String × ℚ)) (yearFilter : Option ℤ) :
    ℚ → List SolTransfer → List TaxRow
  | _, [] => []
  | rem, w :: rest =>
    let dateStr := w.date.getD "unknown"
    let cap := min w.amountSol rem
    let rev := w.amountSol - cap
    let tail := wdRows prices yearFilter (rem - cap) rest
    if matchesYear dateStr yearFilter then
      let price := getPrice prices dateStr
      let dl := destLabel w
      (if cap > 0 then
        [⟨dateStr, "Return of Capital", "Withdrawal",
          "Return of seed capital to " ++ dl, some cap, some price, cap * price,
          dl, w.signature⟩]
       else []) ++
      (if rev > 0 then
        [⟨dateStr, "Revenue", "Withdrawal",
          "External withdrawal to " ++ dl, some rev, some price, rev * price,
          dl, w.signature⟩]
       else []) ++ tail
    else tail

/-- Translation of `tax_report.rs::add_withdrawal_rows`: sort chronologically,
then run the FIFO consumption loop from the total seeded capital. -/
def addWithdrawalRows (prices : List (String × ℚ)) (yearFilter : Option ℤ)
    (totalSeededSol : ℚ) (withdrawals : List SolTransfer) : List TaxRow :=
  wdRows prices yearFilter totalSeededSol (sortWithdrawals withdrawals)

/-- The numeric core of the loop: for each amount, the triple
(pool before, capital portion, revenue portion). -/
def fifoRun : ℚ → List ℚ → List (ℚ × ℚ × ℚ)
  | _, [] => []
  | rem, a :: rest => (rem, min a rem, a - min a rem) :: fifoRun (rem - min a rem) rest

/-- Sum of the `SOL Amount` column of the Return-of-Capital rows. -/
def rocSum (rows : List TaxRow) : ℚ :=
  ((rows.filter (fun r => r.entryType == "Return of Capital")).map
    (fun r => r.solAmount.getD 0)).sum

theorem fifoRun_length (rem : ℚ) (l : List ℚ) : (fifoRun rem l).length = l.length := by
  induction l generalizing rem with
  | nil => rfl
  | cons a rest ih => simp [fifoRun, ih]

theorem sum_take_nonneg (l : List ℚ) (h : ∀ a ∈ l, 0 ≤ a) (i : ℕ) :
    0 ≤ (l.take i).sum :=
  List.sum_nonneg fun a ha => h a (List.take_subset i l ha)

theorem fifoRun_getD (l : List ℚ) : ∀ (rem : ℚ), 0 ≤ rem → (∀ a ∈ l, 0 ≤ a) →
    ∀ i, i < l.length →
    (fifoRun rem l).getD i (0, 0, 0) =
      (max (rem - (l.take i).sum) 0,
       min (l.getD i 0) (max (rem - (l.take i).sum) 0),
       l.getD i 0 - min (l.getD i 0) (max (rem - (l.take i).sum) 0)) := by
  induction l with
  | nil => intro rem _ _ i hi; simp at hi
  | cons a rest ih =>
    intro rem h0 hl i hi
    have ha : 0 ≤ a := hl a (List.mem_cons_self a rest)
    rcases i with _ | i
    · simp [fifoRun, max_eq_left h0]
    · have hrem' : 0 ≤ rem - min a rem :=
        sub_nonneg.mpr (min_le_right a rem)
      have hrest : ∀ b ∈ rest, 0 ≤ b := fun b hb => hl b (List.mem_cons_of_mem a hb)
      have hi' : i < rest.length := by simpa using hi
      have hs : 0 ≤ (rest.take i).sum := sum_take_nonneg rest hrest i
      have key : max ((rem - min a rem) - (rest.take i).sum) 0
          = max (rem - (a :: rest.take i).sum) 0 := by
        rcases le_total a rem with h | h
        · rw [min_eq_left h]
          congr 1
          simp only [List.sum_cons]
          ring
        · rw [min_eq_right h]
          rw [show rem - rem - (rest.take i).sum = -(rest.take i).sum by ring]
          rw [max_eq_right (by linarith), max_eq_right]
          simp only [List.sum_cons]
          linarith
      have := ih (rem - min a rem) hrem' hrest i hi'
      simp only [fifoRun, List.getD_cons_succ, List.take_succ_cons]
      rw [this, key]

theorem fifoRun_capSum (l : List ℚ) : ∀ (rem : ℚ), 0 ≤ rem → (∀ a ∈ l, 0 ≤ a) →
    ((fifoRun rem l).map (fun x => x.2.1)).sum = min l.sum rem := by
  induction l with
  | nil => intro rem h0 _; simp [fifoRun, min_eq_left h0]
  | cons a rest ih =>
    intro rem h0 hl
    have ha : 0 ≤ a := hl a (List.mem_cons_self a rest)
    have hrem' : 0 ≤ rem - min a rem := sub_nonneg.mpr (min_le_right a rem)
    have hrest : ∀ b ∈ rest, 0 ≤ b := fun b hb => hl b (List.mem_cons_of_mem a hb)
    have hsum : 0 ≤ rest.sum := List.sum_nonneg hrest
    simp only [fifoRun, List.map_cons, List.sum_cons, ih (rem - min a rem) hrem' hrest]
    rcases le_total a rem with h | h
    · rw [min_eq_left h]
      rcases le_total rest.sum (rem - a) with h2 | h2
      · rw [min_eq_left h2, min_eq_left (by linarith)]
      · rw [min_eq_right h2, min_eq_right (by linarith)]
        ring
    · rw [min_eq_right h]
      rw [show rem - rem = (0 : ℚ) by ring, min_eq_right hsum,
        min_eq_right (by linarith)]
      ring

theorem fifoRun_append (l1 l2 : List ℚ) : ∀ rem : ℚ,
    fifoRun rem (l1 ++ l2) =
      fifoRun rem l1 ++
        fifoRun (rem - ((fifoRun rem l1).map (fun x => x.2.1)).sum) l2 := by
  induction l1 with
  | nil => intro rem; simp [fifoRun]
  | cons a rest ih =>
    intro rem
    have h1 : fifoRun rem ((a :: rest) ++ l2)
        = (rem, min a rem, a - min a rem) :: fifoRun (rem - min a rem) (rest ++ l2) := rfl
    have h2 : fifoRun rem (a :: rest)
        = (rem, min a rem, a - min a rem) :: fifoRun (rem - min a rem) rest := rfl
    rw [h1, h2, ih]
    simp only [List.map_cons, List.sum_cons, List.cons_append]
    have h3 : rem - min a rem - ((fifoRun (rem - min a rem) rest).map (fun x => x.2.1)).sum
        = rem - (min a rem + ((fifoRun (rem - min a rem) rest).map (fun x => x.2.1)).sum) := by
      ring
    rw [h3]

theorem matchesYear_none (d : String) : matchesYear d none = true := by
  unfold matchesYear
  split <;> rfl

theorem rocSum_append (xs ys : List TaxRow) :
    rocSum (xs ++ ys) = rocSum xs + rocSum ys := by
  simp [rocSum, List.filter_append]

theorem wdRows_rocSum (prices : List (String × ℚ)) (l : List SolTransfer) :
    ∀ rem : ℚ, 0 ≤ rem → (∀ w ∈ l, 0 ≤ w.amountSol) →
    rocSum (wdRows prices none rem l)
      = ((fifoRun rem (l.map (·.amountSol))).map (fun x => x.2.1)).sum := by
  induction l with
  | nil => intro rem _ _; simp [wdRows, fifoRun, rocSum]
  | cons w rest ih =>
    intro rem h0 hl
    have ha : 0 ≤ w.amountSol := hl w (List.mem_cons_self w rest)
    have hcap : 0 ≤ min w.amountSol rem := le_min ha h0
    have hrem' : 0 ≤ rem - min w.amountSol rem :=
      sub_nonneg.mpr (min_le_right _ _)
    have hrest : ∀ v ∈ rest, 0 ≤ v.amountSol :=
      fun v hv => hl v (List.mem_cons_of_mem w hv)
    simp only [wdRows, matchesYear_none, if_true]
    rw [rocSum_append, rocSum_append]
    have hroc : rocSum (if min w.amountSol rem > 0 then
        [⟨w.date.getD "unknown", "Return of Capital", "Withdrawal",
          "Return of seed capital to " ++ destLabel w,
          some (min w.amountSol rem), some (getPrice prices (w.date.getD "unknown")),
          min w.amountSol rem * getPrice prices (w.date.getD "unknown"),
          destLabel w, w.signature⟩] else []) = min w.amountSol rem := by
      split_ifs with h
      · simp [rocSum]
      · have : min w.amountSol rem = 0 := le_antisymm (not_lt.mp h) hcap
        simp [rocSum, this]
    have hrev : rocSum (if w.amountSol - min w.amountSol rem > 0 then
        [⟨w.date.getD "unknown", "Revenue", "Withdrawal",
          "External withdrawal to " ++ destLabel w,
          some (w.amountSol - min w.amountSol rem),
          some (getPrice prices (w.date.getD "unknown")),
          (w.amountSol - min w.amountSol rem) * getPrice prices (w.date.getD "unknown"),
          destLabel w, w.signature⟩] else []) = 0 := by
      split_ifs <;> simp [rocSum]
    rw [hroc, hrev, ih (rem - min w.amountSol rem) hrem' hrest]
    simp [fifoRun]

/-- C1: processing the date-sorted withdrawals against a pool initialized to
the total seeded amount, each step's pool is the seeded amount less the
capital consumed by strictly earlier withdrawals (clamped at 0, i.e. capital
goes to the earliest withdrawals first), the capital portion is
`min(amount, remaining)`, the revenue portion is the rest; the capital
portions sum to `min(total_withdrawn, total_seeded)`, and hence the sum of
Return-of-Capital rows emitted by `add_withdrawal_rows` never exceeds the
total contributed capital. -/
theorem C1_fifo_capital_split (prices : List (String × ℚ)) (seeded : ℚ)
    (ws : List SolTransfer) (h0 : 0 ≤ seeded)
    (hw : ∀ w ∈ ws, 0 ≤ w.amountSol) :
    (∀ i, i < ((sortWithdrawals ws).map (·.amountSol)).length →
      (fifoRun seeded ((sortWithdrawals ws).map (·.amountSol))).getD i (0, 0, 0) =
        (max (seeded - (((sortWithdrawals ws).map (·.amountSol)).take i).sum) 0,
         min (((sortWithdrawals ws).map (·.amountSol)).getD i 0)
           (max (seeded - (((sortWithdrawals ws).map (·.amountSol)).take i).sum) 0),
         ((sortWithdrawals ws).map (·.amountSol)).getD i 0 -
           min (((sortWithdrawals ws).map (·.amountSol)).getD i 0)
             (max (seeded - (((sortWithdrawals ws).map (·.amountSol)).take i).sum) 0))) ∧
    ((fifoRun seeded ((sortWithdrawals ws).map (·.amountSol))).map (fun x => x.2.1)).sum
        = min ((ws.map (·.amountSol)).sum) seeded ∧
    rocSum (addWithdrawalRows prices none seeded ws)
        = min ((ws.map (·.amountSol)).sum) seeded ∧
    rocSum (addWithdrawalRows prices none seeded ws) ≤ seeded := by
  have hsortmem : ∀ w ∈ sortWithdrawals ws, 0 ≤ w.amountSol := by
    intro w hmem
    exact hw w ((List.mergeSort_perm ws _).mem_iff.mp hmem)
  have hamts : ∀ a ∈ (sortWithdrawals ws).map (·.amountSol), 0 ≤ a := by
    intro a ha
    obtain ⟨w, hwmem, rfl⟩ := List.mem_map.mp ha
    exact hsortmem w hwmem
  have hsum : ((sortWithdrawals ws).map (·.amountSol)).sum = (ws.map (·.amountSol)).sum :=
    ((List.mergeSort_perm ws _).map (·.amountSol)).sum_eq
  have hcaps : ((fifoRun seeded ((sortWithdrawals ws).map (·.amountSol))).map
      (fun x => x.2.1)).sum = min ((ws.map (·.amountSol)).sum) seeded := by
    rw [fifoRun_capSum _ seeded h0 hamts, hsum]
  have hroc : rocSum (addWithdrawalRows prices none seeded ws)
      = min ((ws.map (·.amountSol)).sum) seeded := by
    rw [addWithdrawalRows, wdRows_rocSum prices _ seeded h0 hsortmem, hcaps]
  exact ⟨fun i hi => fifoRun_getD _ seeded h0 hamts i hi, hcaps, hroc,
    hroc ▸ min_le_right _ _⟩

/-- C1 witness: the spec scenario (seed 100, withdrawals of 60 then 70),
through `C1_fifo_capital_split` with its hypotheses discharged: the
Return-of-Capital rows sum to `min(130, 100) = 100 ≤ 100`. -/
theorem C1_fifo_capital_split_witness :
    rocSum (addWithdrawalRows []
        none 100
        [⟨"sig1", some "2025-01-01", "va", "ex", 60, "Vote", "Coinbase"⟩,
         ⟨"sig2", some "2025-02-01", "va", "ex", 70, "Vote", "Coinbase"⟩])
      = min (([(⟨"sig1", some "2025-01-01", "va", "ex", 60, "Vote", "Coinbase"⟩ : SolTransfer),
          ⟨"sig2", some "2025-02-01", "va", "ex", 70, "Vote", "Coinbase"⟩].map
            (·.amountSol)).sum) 100 ∧
    rocSum (addWithdrawalRows []
        none 100
        [⟨"sig1", some "2025-01-01", "va", "ex", 60, "Vote", "Coinbase"⟩,
         ⟨"sig2", some "2025-02-01", "va", "ex", 70, "Vote", "Coinbase"⟩]) ≤ 100 := by
  have h := C1_fifo_capital_split []
      100
      [⟨"sig1", some "2025-01-01", "va", "ex", 60, "Vote", "Coinbase"⟩,
       ⟨"sig2", some "2025-02-01", "va", "ex", 70, "Vote", "Coinbase"⟩]
      (by norm_num) (by intro w hw; fin_cases hw <;> norm_num)
  exact ⟨h.2.2.1, h.2.2.2⟩

theorem wdRows_filter (prices : List (String × ℚ)) (y : ℤ) (l : List SolTransfer) :
    ∀ rem : ℚ, wdRows prices (some y) rem l
      = (wdRows prices none rem l).filter (fun r => matchesYear r.date (some y)) := by
  induction l with
  | nil => intro rem; rfl
  | cons w rest ih =>
    intro rem
    simp only [wdRows, matchesYear_none, if_true]
    rw [List.filter_append, List.filter_append, ih]
    by_cases hm : matchesYear (w.date.getD "unknown") (some y) = true
    · rw [if_pos hm]
      have h1 : List.filter (fun (r : TaxRow) => matchesYear r.date (some y))
          (if min w.amountSol rem > 0 then
            [⟨w.date.getD "unknown", "Return of Capital", "Withdrawal",
              "Return of seed capital to " ++ destLabel w,
              some (min w.amountSol rem),
              some (getPrice prices (w.date.getD "unknown")),
              min w.amountSol rem * getPrice prices (w.date.getD "unknown"),
              destLabel w, w.signature⟩] else [])
          = (if min w.amountSol rem > 0 then
            [⟨w.date.getD "unknown", "Return of Capital", "Withdrawal",
              "Return of seed capital to " ++ destLabel w,
              some (min w.amountSol rem),
              some (getPrice prices (w.date.getD "unknown")),
              min w.amountSol rem * getPrice prices (w.date.getD "unknown"),
              destLabel w, w.signature⟩] else []) := by
        split_ifs <;> simp [List.filter, hm]
      have h2 : List.filter (fun (r : TaxRow) => matchesYear r.date (some y))
          (if w.amountSol - min w.amountSol rem > 0 then
            [⟨w.date.getD "unknown", "Revenue", "Withdrawal",
              "External withdrawal to " ++ destLabel w,
              some (w.amountSol - min w.amountSol rem),
              some (getPrice prices (w.date.getD "unknown")),
              (w.amountSol - min w.amountSol rem) * getPrice prices (w.date.getD "unknown"),
              destLabel w, w.signature⟩] else [])
          = (if w.amountSol - min w.amountSol rem > 0 then
            [⟨w.date.getD "unknown", "Revenue", "Withdrawal",
              "External withdrawal to " ++ destLabel w,
              some (w.amountSol - min w.amountSol rem),
              some (getPrice prices (w.date.getD "unknown")),
              (w.amountSol - min w.amountSol rem) * getPrice prices (w.date.getD "unknown"),
              destLabel w, w.signature⟩] else []) := by
        split_ifs <;> simp [List.filter, hm]
      rw [h1, h2]
    · rw [if_neg hm]
      have h1 : List.filter (fun (r : TaxRow) => matchesYear r.date (some y))
          (if min w.amountSol rem > 0 then
            [⟨w.date.getD "unknown", "Return of Capital", "Withdrawal",
              "Return of seed capital to " ++ destLabel w,
              some (min w.amountSol rem),
              some (getPrice prices (w.date.getD "unknown")),
              min w.amountSol rem * getPrice prices (w.date.getD "unknown"),
              destLabel w, w.signature⟩] else []) = [] := by
        split_ifs <;> simp [List.filter, hm]
      have h2 : List.filter (fun (r : TaxRow) => matchesYear r.date (some y))
          (if w.amountSol - min w.amountSol rem > 0 then
            [⟨w.date.getD "unknown", "Revenue", "Withdrawal",
              "External withdrawal to " ++ destLabel w,
              some (w.amountSol - min w.amountSol rem),
              some (getPrice prices (w.date.getD "unknown")),
              (w.amountSol - min w.amountSol rem) * getPrice prices (w.date.getD "unknown"),
              destLabel w, w.signature⟩] else []) = [] := by
        split_ifs <;> simp [List.filter, hm]
      rw [h1, h2]
      simp

/-- C2: the year filter only controls which rows are emitted, never which
amounts are consumed: `add_withdrawal_rows` with filter `Some(y)` equals the
unfiltered run (FIFO consumption over the entire sorted history) filtered to
the rows whose date matches year `y`. -/
theorem C2_year_filter_semantics (prices : List (String × ℚ)) (y : ℤ)
    (seeded : ℚ) (ws : List SolTransfer) :
    addWithdrawalRows prices (some y) seeded ws
      = (addWithdrawalRows prices none seeded ws).filter
          (fun r => matchesYear r.date (some y)) :=
  wdRows_filter prices y (sortWithdrawals ws) seeded

theorem optDateLe_none_left (b : Option String) : optDateLe none b = true := by
  cases b <;> rfl

theorem optDateLe_some_none (x : String) : optDateLe (some x) none = false := rfl

theorem optDateLe_some_some (x y : String) :
    optDateLe (some x) (some y) = true ↔ x ≤ y := by
  show ((if x < y then Ordering.lt else if x = y then Ordering.eq else Ordering.gt)
    != Ordering.gt) = true ↔ x ≤ y
  split_ifs with h1 h2
  · exact iff_of_true (by decide) (le_of_lt h1)
  · subst h2
    exact iff_of_true (by decide) le_rfl
  · exact iff_of_false (by decide) fun hle => h2 (le_antisymm hle (not_lt.mp h1))

theorem optDateLe_trans (a b c : Option String)
    (hab : optDateLe a b = true) (hbc : optDateLe b c = true) :
    optDateLe a c = true := by
  rcases a with _ | x <;> rcases b with _ | y <;> rcases c with _ | z
  all_goals first
    | exact optDateLe_none_left _
    | (exfalso; simp [optDateLe_some_none] at hab hbc)
    | (rw [optDateLe_some_some] at hab hbc ⊢; exact le_trans hab hbc)

theorem optDateLe_total (a b : Option String) :
    (optDateLe a b || optDateLe b a) = true := by
  rcases a with _ | x <;> rcases b with _ | y
  · rfl
  · rfl
  · simp [optDateLe_none_left]
  · rcases le_total x y with h | h
    · simp [(optDateLe_some_some x y).mpr h]
    · simp [(optDateLe_some_some y x).mpr h]

theorem dropWhile_false_of_pairwise {α : Type} (p : α → Bool) (l : List α)
    (hp : l.Pairwise fun a b => p b = true → p a = true) :
    ∀ x ∈ l.dropWhile p, p x = false := by
  induction l with
  | nil => simp
  | cons a rest ih =>
    intro x hx
    rw [List.dropWhile_cons] at hx
    by_cases hpa : p a = true
    · rw [if_pos hpa] at hx
      exact ih (List.pairwise_cons.mp hp).2 x hx
    · rw [if_neg hpa] at hx
      rcases List.mem_cons.mp hx with rfl | hmem
      · exact Bool.eq_false_iff.mpr hpa
      · exact Bool.eq_false_iff.mpr fun hh =>
          hpa ((List.pairwise_cons.mp hp).1 x hmem hh)

/-- C10: in the tax ledger's FIFO split the withdrawals are sorted by
`Option::cmp` on their optional dates, under which a missing date orders
strictly before every present date; hence the sorted sequence is all the
undated withdrawals followed by all the dated ones, and the FIFO triples of
the undated ones are computed as if the dated withdrawals did not exist —
against the still-undepleted pool.  (The in-code comment claims the opposite
ordering; the code, modelled here, puts `None` first.) -/
theorem C10_undated_withdrawals_first (seeded : ℚ) (ws : List SolTransfer) :
    (∀ s : String, optDateCmp none (some s) = Ordering.lt) ∧
    (∃ A B, sortWithdrawals ws = A ++ B ∧
      (∀ a ∈ A, a.date = none) ∧ (∀ b ∈ B, b.date ≠ none) ∧
      A.Perm (ws.filter (fun w => w.date.isNone)) ∧
      B.Perm (ws.filter (fun w => w.date.isSome)) ∧
      (fifoRun seeded ((A ++ B).map (·.amountSol))).take A.length
        = fifoRun seeded (A.map (·.amountSol))) := by
  refine ⟨fun s => rfl, ?_⟩
  have hpair : (sortWithdrawals ws).Pairwise
      (fun a b : SolTransfer => optDateLe a.date b.date = true) := by
    have := @List.sorted_mergeSort SolTransfer
      (fun a b : SolTransfer => optDateLe a.date b.date)
      (fun a b c hab hbc => optDateLe_trans a.date b.date c.date hab hbc)
      (fun a b => optDateLe_total a.date b.date) ws
    simpa [sortWithdrawals] using this
  have hmono : (sortWithdrawals ws).Pairwise
      (fun a b : SolTransfer => b.date.isNone = true → a.date.isNone = true) := by
    refine hpair.imp ?_
    intro a b hab hb
    rcases ha : a.date with _ | x
    · rfl
    · rcases hbn : b.date with _ | y
      · rw [ha, hbn] at hab
        exact absurd hab (by simp [optDateLe_some_none])
      · rw [hbn] at hb
        simp at hb
  set p : SolTransfer → Bool := fun w => w.date.isNone with hpdef
  refine ⟨(sortWithdrawals ws).takeWhile p, (sortWithdrawals ws).dropWhile p,
    (List.takeWhile_append_dropWhile p (sortWithdrawals ws)).symm, ?_, ?_, ?_, ?_, ?_⟩
  · intro a ha
    have := List.mem_takeWhile_imp ha
    simpa [hpdef, Option.isNone_iff_eq_none] using this
  · intro b hb
    have := dropWhile_false_of_pairwise p (sortWithdrawals ws) hmono b hb
    simp only [hpdef, Option.isNone_iff_eq_none] at this
    intro hcontra
    rw [hcontra] at this
    simp at this
  · have hA : ((sortWithdrawals ws).takeWhile p).filter p
        = (sortWithdrawals ws).takeWhile p :=
      List.filter_eq_self.mpr fun a ha => List.mem_takeWhile_imp ha
    have hB : ((sortWithdrawals ws).dropWhile p).filter p = [] :=
      List.filter_eq_nil_iff.mpr fun b hb => by
        simp [dropWhile_false_of_pairwise p (sortWithdrawals ws) hmono b hb]
    have hsplit : (sortWithdrawals ws).filter p
        = (sortWithdrawals ws).takeWhile p := by
      conv_lhs => rw [← List.takeWhile_append_dropWhile p (sortWithdrawals ws)]
      rw [List.filter_append, hA, hB, List.append_nil]
    have hperm : List.Perm ((sortWithdrawals ws).filter p) (ws.filter p) :=
      (List.mergeSort_perm ws _).filter p
    rw [hsplit] at hperm
    exact hperm
  · have hq : ∀ b ∈ (sortWithdrawals ws).dropWhile p, b.date.isSome = true := by
      intro b hb
      have := dropWhile_false_of_pairwise p (sortWithdrawals ws) hmono b hb
      simpa [hpdef, Option.isSome_iff_ne_none, Option.isNone_iff_eq_none] using this
    have hA : ((sortWithdrawals ws).takeWhile p).filter (fun w => w.date.isSome) = [] :=
      List.filter_eq_nil_iff.mpr fun a ha => by
        have := List.mem_takeWhile_imp ha
        simp only [hpdef] at this
        simp [Option.isNone_iff_eq_none.mp this]
    have hB : ((sortWithdrawals ws).dropWhile p).filter (fun w => w.date.isSome)
        = (sortWithdrawals ws).dropWhile p :=
      List.filter_eq_self.mpr hq
    have hsplit : (sortWithdrawals ws).filter (fun w => w.date.isSome)
        = (sortWithdrawals ws).dropWhile p := by
      conv_lhs => rw [← List.takeWhile_append_dropWhile p (sortWithdrawals ws)]
      rw [List.filter_append, hA, hB, List.nil_append]
    have hperm : List.Perm ((sortWithdrawals ws).filter (fun w => w.date.isSome))
        (ws.filter (fun w => w.date.isSome)) :=
      (List.mergeSort_perm ws _).filter _
    rw [hsplit] at hperm
    exact hperm
  · rw [List.map_append, fifoRun_append]
    have hlen : (fifoRun seeded (((sortWithdrawals ws).takeWhile p).map (·.amountSol))).length
        = ((sortWithdrawals ws).takeWhile p).length := by
      rw [fifoRun_length, List.length_map]
    rw [← hlen]
    exact List.take_left _ _

/-! ## Timeline builder (claims C3, C4)

Translated from `bp-web/src/financials/timeline.rs` (`accumulate`,
`sort_date`, `type_order`, `build_timeline`) and the record types of
`bp-web/src/financials/types.rs`.  The presentation-only `label`/`sublabel`
strings are omitted from the event record; `event_type`, dates, amounts,
cumulative fields and `is_pnl` are all kept.  `ExpenseCategory` is carried as
its display string, which is all the timeline uses. -/

/-- Model of `types.rs::TimelineEvent` (without `label`/`sublabel`). -/
structure TimelineEvent where
  date : String
  epoch : Option ℕ
  eventType : String
  amountSol : ℚ
  amountUsd : ℚ
  cumulativeProfitUsd : ℚ
  cumulativeRevenueUsd : ℚ
  cumulativeExpensesUsd : ℚ
  isPnl : Bool
deriving DecidableEq, Repr

/-- Placeholder event used as the `getD` default in statements. -/
def dummyEvent : TimelineEvent := ⟨"", none, "", 0, 0, 0, 0, 0, false⟩

/-- Translation of `timeline.rs::accumulate`, with the running totals as
explicit parameters (they start at 0). -/
def accumulateFrom (p r e : ℚ) : List TimelineEvent → List TimelineEvent
  | [] => []
  | ev :: rest =>
    let r' := if ev.isPnl then (if ev.amountUsd ≥ 0 then r + ev.amountUsd else r) else r
    let e' := if ev.isPnl then (if ev.amountUsd ≥ 0 then e else e + |ev.amountUsd|) else e
    let p' := if ev.isPnl then p + ev.amountUsd else p
    { ev with
      cumulativeProfitUsd := p'
      cumulativeRevenueUsd := r'
      cumulativeExpensesUsd := e' } :: accumulateFrom p' r' e' rest

/-- `accumulate`: walk forward through sorted events accumulating totals. -/
def accumulate (events : List TimelineEvent) : List TimelineEvent :=
  accumulateFrom 0 0 0 events

/-- Signed P&L contribution of one event (0 for balance-sheet events). -/
def pnlP (ev : TimelineEvent) : ℚ := if ev.isPnl then ev.amountUsd else 0

/-- Revenue contribution of one event (non-negative amounts of P&L events). -/
def pnlR (ev : TimelineEvent) : ℚ :=
  if ev.isPnl then (if ev.amountUsd ≥ 0 then ev.amountUsd else 0) else 0

/-- Expense contribution of one event (absolute value of negative amounts of
P&L events). -/
def pnlE (ev : TimelineEvent) : ℚ :=
  if ev.isPnl then (if ev.amountUsd ≥ 0 then 0 else |ev.amountUsd|) else 0

/-- Total signed P&L of a list of events. -/
def pnlProfit (l : List TimelineEvent) : ℚ := (l.map pnlP).sum

/-- Total revenue of a list of events. -/
def pnlRevenue (l : List TimelineEvent) : ℚ := (l.map pnlR).sum

/-- Total expenses of a list of events. -/
def pnlExpenses (l : List TimelineEvent) : ℚ := (l.map pnlE).sum

theorem accumulateFrom_cons (p r e : ℚ) (ev : TimelineEvent)
    (rest : List TimelineEvent) :
    accumulateFrom p r e (ev :: rest) =
      { ev with
        cumulativeProfitUsd := p + pnlP ev
        cumulativeRevenueUsd := r + pnlR ev
        cumulativeExpensesUsd := e + pnlE ev }
        :: accumulateFrom (p + pnlP ev) (r + pnlR ev) (e + pnlE ev) rest := by
  by_cases h1 : ev.isPnl <;> by_cases h2 : ev.amountUsd ≥ 0 <;>
    simp [accumulateFrom, pnlP, pnlR, pnlE, h1, h2]

theorem accumulateFrom_getD (l : List TimelineEvent) :
    ∀ (p r e : ℚ) (i : ℕ), i < l.length →
    (accumulateFrom p r e l).getD i dummyEvent =
      { l.getD i dummyEvent with
        cumulativeProfitUsd := p + pnlProfit (l.take (i + 1))
        cumulativeRevenueUsd := r + pnlRevenue (l.take (i + 1))
        cumulativeExpensesUsd := e + pnlExpenses (l.take (i + 1)) } := by
  induction l with
  | nil => intro p r e i hi; simp at hi
  | cons ev rest ih =>
    intro p r e i hi
    rw [accumulateFrom_cons]
    rcases i with _ | i
    · simp [pnlProfit, pnlRevenue, pnlExpenses]
    · have hi' : i < rest.length := by simpa using hi
      rw [List.getD_cons_succ, List.getD_cons_succ, ih (p + pnlP ev) (r + pnlR ev)
        (e + pnlE ev) i hi']
      simp only [List.take_succ_cons, pnlProfit, pnlRevenue, pnlExpenses,
        List.map_cons, List.sum_cons]
      congr 1 <;> ring

theorem accumulateFrom_length (l : List TimelineEvent) :
    ∀ p r e, (accumulateFrom p r e l).length = l.length := by
  induction l with
  | nil => intro p r e; rfl
  | cons ev rest ih =>
    intro p r e
    rw [accumulateFrom_cons]
    simp [ih]

/-- Model of `types.rs::EpochReward`. -/
structure EpochReward where
  epoch : ℕ
  amountSol : ℚ
  commission : ℕ
  date : Option String

/-- Model of `types.rs::EpochLeaderFees`. -/
structure EpochLeaderFees where
  epoch : ℕ
  totalFeesSol : ℚ
  blocksProduced : ℕ
  skippedSlots : ℕ
  date : Option String

/-- Model of `types.rs::MevClaim`. -/
structure MevClaim where
  epoch : ℕ
  amountSol : ℚ
  totalTipsLamports : ℕ
  commissionLamports : ℕ
  date : Option String

/-- Model of `types.rs::BamClaim`. -/
structure BamClaim where
  epoch : ℕ
  amountSolEquivalent : ℚ
  amountJitosolLamports : ℕ
  jitosolSolRate : Option ℚ
  txSignature : String
  date : Option String

/-- Model of `types.rs::EpochVoteCost`. -/
structure EpochVoteCost where
  epoch : ℕ
  voteCount : ℕ
  totalFeeSol : ℚ
  source : String
  date : Option String

/-- Model of `types.rs::DoubleZeroFee`. -/
structure DoubleZeroFee where
  epoch : ℕ
  liabilitySol : ℚ
  feeBaseLamports : ℕ
  feeRateBps : ℕ
  date : Option String
  isEstimate : Bool

/-- Model of `types.rs::Expense` (the category enum carried as its display
string). -/
structure Expense where
  date : String
  vendor : String
  category : String
  description : String
  amountUsd : ℚ
  paidWith : String
  invoiceId : Option String

/-- Model of `types.rs::CategorizedTransfers`. -/
structure CategorizedTransfers where
  seeding : List SolTransfer
  sfdpReimbursements : List SolTransfer
  mevDeposits : List SolTransfer
  doublezeroPayments : List SolTransfer
  voteFunding : List SolTransfer
  withdrawals : List SolTransfer
  other : List SolTransfer

/-- The all-empty bucket set (`CategorizedTransfers::default()`). -/
def emptyCategorized : CategorizedTransfers := ⟨[], [], [], [], [], [], []⟩

/-- Model of `types.rs::ReportData`. -/
structure ReportData where
  rewards : List EpochReward
  categorized : CategorizedTransfers
  mevClaims : List MevClaim
  bamClaims : List BamClaim
  leaderFees : List EpochLeaderFees
  doublezeroFees : List DoubleZeroFee
  voteCosts : List EpochVoteCost
  expenses : List Expense
  prices : List (String × ℚ)
  sfdpAcceptanceDate : Option String

/-- `timeline.rs::FALLBACK_DATE`. -/
def FALLBACK_DATE : String := "2025-12-15"

/-- Translation of `timeline.rs::sort_date`: map "unknown" to a sentinel that
sorts before all real ISO dates. -/
def sortDate (d : String) : String := if d = "unknown" then "0000-00-00" else d

/-- Translation of `timeline.rs::type_order` (both the operating-timeline arms
and the tax-timeline arms of the same Rust `match`). -/
def typeOrder (eventType : String) : ℕ :=
  match eventType with
  | "commission" => 0
  | "leader_fees" => 1
  | "mev" => 2
  | "bam" => 3
  | "vote_cost" => 4
  | "doublezero" => 5
  | "expense" => 6
  | "seeding" => 7
  | "withdrawal" => 8
  | "doublezero_payment" => 9
  | "tax_revenue" => 0
  | "tax_return_capital" => 1
  | "tax_reimbursement" => 2
  | "tax_expense_vote_fees" => 3
  | "tax_expense_doublezero" => 4
  | "tax_expense_hosting" => 5
  | "tax_expense_software" => 6
  | "tax_expense_contractor" => 7
  | "tax_expense_hardware" => 8
  | "tax_expense_other" => 9
  | _ => 10

/-- String comparison as Rust `str::cmp` (lexicographic). -/
def strCmp (a b : String) : Ordering :=
  if a < b then .lt else if a = b then .eq else .gt

/-- Nat comparison as Rust `u8::cmp`. -/
def natCmp (a b : ℕ) : Ordering :=
  if a < b then .lt else if a = b then .eq else .gt

/-- The sort key of `build_timeline`'s comparator. -/
def evKey (ev : TimelineEvent) : String × ℕ := (sortDate ev.date, typeOrder ev.eventType)

/-- The comparator of `build_timeline`:
`sort_date(a).cmp(sort_date(b)).then_with(|| type_order(a).cmp(type_order(b)))`. -/
def evCmp (a b : TimelineEvent) : Ordering :=
  (strCmp (sortDate a.date) (sortDate b.date)).then
    (natCmp (typeOrder a.eventType) (typeOrder b.eventType))

/-- `evCmp a b != Greater`, the Boolean order the stable sort uses. -/
def evLe (a b : TimelineEvent) : Bool := evCmp a b != Ordering.gt

/-- The lexicographic order on sort keys (spec side of the comparator). -/
def pairLe (x y : String × ℕ) : Prop :=
  x.1 < y.1 ∨ (x.1 = y.1 ∧ x.2 ≤ y.2)

/-- Translation of `timeline.rs::build_timeline`: one event per source record
(with the source's `event_type`, sign convention and `is_pnl` flag), sorted by
`(sort_date, type_order)` and then accumulated. -/
def buildTimeline (data : ReportData) : List TimelineEvent :=
  let events : List TimelineEvent :=
    (data.rewards.map (fun rw =>
      let date := rw.date.getD "unknown"
      ⟨date, some rw.epoch, "commission", rw.amountSol,
        rw.amountSol * getPrice data.prices date, 0, 0, 0, true⟩)) ++
    (data.leaderFees.map (fun fees =>
      let date := fees.date.getD "unknown"
      ⟨date, some fees.epoch, "leader_fees", fees.totalFeesSol,
        fees.totalFeesSol * getPrice data.prices date, 0, 0, 0, true⟩)) ++
    (if data.mevClaims.isEmpty then
      data.categorized.mevDeposits.map (fun t =>
        let date := t.date.getD "unknown"
        ⟨date, none, "mev", t.amountSol,
          t.amountSol * getPrice data.prices date, 0, 0, 0, true⟩)
     else
      data.mevClaims.map (fun claim =>
        let date := claim.date.getD "unknown"
        ⟨date, some claim.epoch, "mev", claim.amountSol,
          claim.amountSol * getPrice data.prices date, 0, 0, 0, true⟩)) ++
    (data.bamClaims.map (fun claim =>
      let date := claim.date.getD "unknown"
      ⟨date, some claim.epoch, "bam", claim.amountSolEquivalent,
        claim.amountSolEquivalent * getPrice data.prices date, 0, 0, 0, true⟩)) ++
    (data.voteCosts.map (fun cost =>
      let date := cost.date.getD "unknown"
      let price := getPrice data.prices date
      let grossUsd := cost.totalFeeSol * price
      let parsed := (parseDate date).getD ⟨2025, 12, 15⟩
      let coverage := (data.sfdpAcceptanceDate.map
        (fun sfdpDate => sfdpCoveragePercentStr sfdpDate parsed)).getD 0
      ⟨date, some cost.epoch, "vote_cost",
        -(cost.totalFeeSol * (1 - coverage)), -(grossUsd * (1 - coverage)),
        0, 0, 0, true⟩)) ++
    (data.doublezeroFees.map (fun fee =>
      let date := fee.date.getD "unknown"
      ⟨date, some fee.epoch, "doublezero", -fee.liabilitySol,
        -(fee.liabilitySol * getPrice data.prices date), 0, 0, 0, true⟩)) ++
    (data.expenses.map (fun expense =>
      ⟨expense.date, none, "expense", 0, -expense.amountUsd, 0, 0, 0, true⟩)) ++
    (data.categorized.seeding.map (fun t =>
      let date := t.date.getD "unknown"
      ⟨date, none, "seeding", t.amountSol,
        t.amountSol * getPrice data.prices date, 0, 0, 0, false⟩)) ++
    (data.categorized.withdrawals.map (fun t =>
      let date := t.date.getD "unknown"
      ⟨date, none, "withdrawal", t.amountSol,
        t.amountSol * getPrice data.prices date, 0, 0, 0, false⟩)) ++
    (data.categorized.doublezeroPayments.map (fun t =>
      let date := t.date.getD "unknown"
      ⟨date, none, "doublezero_payment", t.amountSol,
        t.amountSol * getPrice data.prices date, 0, 0, 0, false⟩))
  accumulate (events.mergeSort evLe)

theorem then_lt (o : Ordering) : Ordering.lt.then o = Ordering.lt := rfl

theorem then_gt (o : Ordering) : Ordering.gt.then o = Ordering.gt := rfl

theorem then_eq (o : Ordering) : Ordering.eq.then o = o := rfl

theorem evLe_iff (a b : TimelineEvent) :
    evLe a b = true ↔ pairLe (evKey a) (evKey b) := by
  unfold evLe evCmp pairLe evKey strCmp natCmp
  rcases lt_trichotomy (sortDate a.date) (sortDate b.date) with h | h | h
  · rw [if_pos h, then_lt]
    exact iff_of_true (by decide) (Or.inl h)
  · rw [if_neg (by rw [h]; exact lt_irrefl _), if_pos h, then_eq]
    rcases lt_trichotomy (typeOrder a.eventType) (typeOrder b.eventType) with h2 | h2 | h2
    · rw [if_pos h2]
      exact iff_of_true (by decide) (Or.inr ⟨h, le_of_lt h2⟩)
    · rw [if_neg (by omega), if_pos h2]
      exact iff_of_true (by decide) (Or.inr ⟨h, le_of_eq h2⟩)
    · rw [if_neg (by omega), if_neg (by omega)]
      refine iff_of_false (by decide) ?_
      rintro (hlt | ⟨_, hle⟩)
      · exact absurd hlt (by rw [h]; exact lt_irrefl _)
      · omega
  · rw [if_neg (asymm h), if_neg (ne_of_gt h), then_gt]
    refine iff_of_false (by decide) ?_
    rintro (hlt | ⟨heq, _⟩)
    · exact absurd hlt (asymm h)
    · exact absurd heq (ne_of_gt h)

theorem pairLe_trans (x y z : String × ℕ)
    (h1 : pairLe x y) (h2 : pairLe y z) : pairLe x z := by
  rcases h1 with h1 | ⟨e1, le1⟩ <;> rcases h2 with h2 | ⟨e2, le2⟩
  · exact Or.inl (lt_trans h1 h2)
  · exact Or.inl (e2 ▸ h1)
  · exact Or.inl (e1 ▸ h2)
  · exact Or.inr ⟨e1.trans e2, le_trans le1 le2⟩

theorem pairLe_total (x y : String × ℕ) : pairLe x y ∨ pairLe y x := by
  rcases lt_trichotomy x.1 y.1 with h | h | h
  · exact Or.inl (Or.inl h)
  · rcases le_total x.2 y.2 with h2 | h2
    · exact Or.inl (Or.inr ⟨h, h2⟩)
    · exact Or.inr (Or.inr ⟨h.symm, h2⟩)
  · exact Or.inr (Or.inl h)

theorem mergeSort_pairwise_key (l : List TimelineEvent) :
    (l.mergeSort evLe).Pairwise (fun a b => pairLe (evKey a) (evKey b)) := by
  have hsorted := @List.sorted_mergeSort TimelineEvent evLe
    (fun a b c hab hbc => (evLe_iff a c).mpr
      (pairLe_trans _ _ _ ((evLe_iff a b).mp hab) ((evLe_iff b c).mp hbc)))
    (fun a b => by
      rcases pairLe_total (evKey a) (evKey b) with h | h
      · simp [(evLe_iff a b).mpr h]
      · simp [(evLe_iff b a).mpr h]) l
  exact hsorted.imp fun hab => (evLe_iff _ _).mp hab

theorem accumulateFrom_map_evKey (l : List TimelineEvent) :
    ∀ p r e, (accumulateFrom p r e l).map evKey = l.map evKey := by
  induction l with
  | nil => intro p r e; rfl
  | cons ev rest ih =>
    intro p r e
    rw [accumulateFrom_cons]
    simp only [List.map_cons, ih]
    rfl

theorem accumulate_pairwise_key (l : List TimelineEvent)
    (h : l.Pairwise (fun a b => pairLe (evKey a) (evKey b))) :
    (accumulate l).Pairwise (fun a b => pairLe (evKey a) (evKey b)) := by
  have hmapped : ((l.map evKey).Pairwise fun x y => pairLe x y) :=
    List.pairwise_map.mpr h
  rw [← accumulateFrom_map_evKey l 0 0 0] at hmapped
  exact List.pairwise_map.mp hmapped

/-- C4: the sequence returned by `build_timeline` is pairwise ordered by the
lexicographic key `(sort_date(date), type_order(event_type))`; the "unknown"
sentinel is mapped to `0000-00-00`, which compares strictly below every
string starting with a character above `'0'` (in particular every real
`YYYY-MM-DD` date), while real dates are left unchanged; and `type_order` is
the fixed chain commission < leader-fee < MEV < incentive-claim < vote-cost <
network-fee < off-chain-expense < seeding < withdrawal < prepayment. -/
theorem C4_timeline_sort_order (data : ReportData) :
    (buildTimeline data).Pairwise (fun a b => pairLe (evKey a) (evKey b)) ∧
    sortDate "unknown" = "0000-00-00" ∧
    (∀ s, s ≠ "unknown" → sortDate s = s) ∧
    (∀ (c : Char) (cs : List Char), '0' < c →
      sortDate "unknown" < String.mk (c :: cs)) ∧
    (typeOrder "commission" < typeOrder "leader_fees" ∧
     typeOrder "leader_fees" < typeOrder "mev" ∧
     typeOrder "mev" < typeOrder "bam" ∧
     typeOrder "bam" < typeOrder "vote_cost" ∧
     typeOrder "vote_cost" < typeOrder "doublezero" ∧
     typeOrder "doublezero" < typeOrder "expense" ∧
     typeOrder "expense" < typeOrder "seeding" ∧
     typeOrder "seeding" < typeOrder "withdrawal" ∧
     typeOrder "withdrawal" < typeOrder "doublezero_payment") := by
  refine ⟨?_, by decide, fun s hs => if_neg hs, ?_, by decide⟩
  · simp only [buildTimeline]
    exact accumulate_pairwise_key _ (mergeSort_pairwise_key _)
  · intro c cs hc
    have h1 : sortDate "unknown" = "0000-00-00" := by decide
    rw [h1, String.lt_iff_toList_lt]
    rw [show ("0000-00-00").toList
      = ['0', '0', '0', '0', '-', '0', '0', '-', '0', '0'] from rfl]
    rw [show (String.mk (c :: cs)).toList = c :: cs from rfl]
    exact List.Lex.rel hc

theorem accumulateFrom_map_pnlP (l : List TimelineEvent) :
    ∀ p r e, (accumulateFrom p r e l).map pnlP = l.map pnlP := by
  induction l with
  | nil => intro p r e; rfl
  | cons ev rest ih =>
    intro p r e
    rw [accumulateFrom_cons]
    simp only [List.map_cons, ih]
    rfl

theorem accumulateFrom_map_pnlR (l : List TimelineEvent) :
    ∀ p r e, (accumulateFrom p r e l).map pnlR = l.map pnlR := by
  induction l with
  | nil => intro p r e; rfl
  | cons ev rest ih =>
    intro p r e
    rw [accumulateFrom_cons]
    simp only [List.map_cons, ih]
    rfl

theorem accumulateFrom_map_pnlE (l : List TimelineEvent) :
    ∀ p r e, (accumulateFrom p r e l).map pnlE = l.map pnlE := by
  induction l with
  | nil => intro p r e; rfl
  | cons ev rest ih =>
    intro p r e
    rw [accumulateFrom_cons]
    simp only [List.map_cons, ih]
    rfl

theorem getLast_eq_getD_pred {α : Type} (l : List α) (h : l ≠ []) (d : α) :
    l.getLast h = l.getD (l.length - 1) d := by
  have hpos : 0 < l.length := List.length_pos.mpr h
  rw [List.getD_eq_getElem?_getD, List.getElem?_eq_getElem (Nat.sub_lt hpos Nat.one_pos),
    Option.getD_some, List.getLast_eq_getElem]

theorem accumulate_getLast_totals (l : List TimelineEvent) (h : accumulate l ≠ []) :
    ((accumulate l).getLast h).cumulativeProfitUsd = pnlProfit (accumulate l) ∧
    ((accumulate l).getLast h).cumulativeRevenueUsd = pnlRevenue (accumulate l) ∧
    ((accumulate l).getLast h).cumulativeExpensesUsd = pnlExpenses (accumulate l) := by
  have hlen : (accumulate l).length = l.length := accumulateFrom_length l 0 0 0
  have hne : l ≠ [] := by
    intro he
    apply h
    rw [he]
    rfl
  have hpos : 0 < l.length := List.length_pos.mpr hne
  have hi : l.length - 1 < l.length := Nat.sub_lt hpos Nat.one_pos
  have hgd := accumulateFrom_getD l 0 0 0 (l.length - 1) hi
  have htake : (l.length - 1) + 1 = l.length := Nat.sub_add_cancel hpos
  rw [htake, List.take_length] at hgd
  have hP : pnlProfit (accumulate l) = pnlProfit l := by
    rw [pnlProfit, pnlProfit, accumulate, accumulateFrom_map_pnlP]
  have hR : pnlRevenue (accumulate l) = pnlRevenue l := by
    rw [pnlRevenue, pnlRevenue, accumulate, accumulateFrom_map_pnlR]
  have hE : pnlExpenses (accumulate l) = pnlExpenses l := by
    rw [pnlExpenses, pnlExpenses, accumulate, accumulateFrom_map_pnlE]
  rw [getLast_eq_getD_pred _ h dummyEvent, hlen]
  have hacc : accumulate l = accumulateFrom 0 0 0 l := rfl
  rw [hacc] at hP hR hE ⊢
  rw [hgd]
  exact ⟨by simp [hP], by simp [hR], by simp [hE]⟩

/-- C3: after the single forward accumulation pass, the i-th event carries the
P&L totals of the sorted prefix ending at it (so the last event carries the
totals over all events); a `is_pnl = false` event contributes nothing to any
of profit, revenue or expenses, but still receives the currently accumulated
values; and in particular the last event of `build_timeline` carries the
totals over all its events — profit the sum of signed amounts of `is_pnl`
events, revenue the sum of their non-negative amounts, expenses the sum of
absolute values of their negative amounts. -/
theorem C3_cumulative_totals :
    (∀ l : List TimelineEvent, ∀ i, i < l.length →
      (accumulate l).getD i dummyEvent =
        { l.getD i dummyEvent with
          cumulativeProfitUsd := pnlProfit (l.take (i + 1))
          cumulativeRevenueUsd := pnlRevenue (l.take (i + 1))
          cumulativeExpensesUsd := pnlExpenses (l.take (i + 1)) }) ∧
    (∀ l : List TimelineEvent, ∀ i, i < l.length →
      (l.getD i dummyEvent).isPnl = false →
      pnlProfit (l.take (i + 1)) = pnlProfit (l.take i) ∧
      pnlRevenue (l.take (i + 1)) = pnlRevenue (l.take i) ∧
      pnlExpenses (l.take (i + 1)) = pnlExpenses (l.take i)) ∧
    (∀ data : ReportData, ∀ h : buildTimeline data ≠ [],
      ((buildTimeline data).getLast h).cumulativeProfitUsd
          = pnlProfit (buildTimeline data) ∧
      ((buildTimeline data).getLast h).cumulativeRevenueUsd
          = pnlRevenue (buildTimeline data) ∧
      ((buildTimeline data).getLast h).cumulativeExpensesUsd
          = pnlExpenses (buildTimeline data)) := by
  refine ⟨?_, ?_, ?_⟩
  · intro l i hi
    have := accumulateFrom_getD l 0 0 0 i hi
    simpa [accumulate, zero_add] using this
  · intro l i hi hp
    have hgd : l.getD i dummyEvent = l[i] := by
      rw [List.getD_eq_getElem?_getD, List.getElem?_eq_getElem hi]
      rfl
    rw [hgd] at hp
    have e1 : l.take (i + 1) = l.take i ++ [l[i]] := by
      rw [List.take_succ, List.getElem?_eq_getElem hi]
      rfl
    refine ⟨?_, ?_, ?_⟩ <;>
      rw [e1] <;>
      simp only [pnlProfit, pnlRevenue, pnlExpenses, List.map_append, List.sum_append,
        List.map_cons, List.map_nil, List.sum_cons, List.sum_nil] <;>
      simp [pnlP, pnlR, pnlE, hp]
  · intro data h
    exact accumulate_getLast_totals _ h

/-- A small concrete input set used to instantiate the timeline theorems. -/
def sampleReportData : ReportData :=
  { rewards := [⟨1, 5, 10, some "2025-01-02"⟩]
    categorized := emptyCategorized
    mevClaims := []
    bamClaims := []
    leaderFees := []
    doublezeroFees := []
    voteCosts := []
    expenses := []
    prices := [("2025-01-02", 2)]
    sfdpAcceptanceDate := none }

unseal List.merge List.mergeSort in
/-- C3 witness: `C3_cumulative_totals` applied at concrete inputs with every
hypothesis discharged: a two-event list (one P&L, one balance-sheet) and the
one-reward sample report. -/
theorem C3_cumulative_totals_witness :
    ((accumulate [⟨"2025-01-01", none, "commission", 1, 7, 0, 0, 0, true⟩,
        ⟨"2025-01-03", none, "seeding", 1, 3, 0, 0, 0, false⟩]).getD 1 dummyEvent =
      { ([⟨"2025-01-01", none, "commission", 1, 7, 0, 0, 0, true⟩,
          (⟨"2025-01-03", none, "seeding", 1, 3, 0, 0, 0, false⟩ : TimelineEvent)]).getD 1
            dummyEvent with
        cumulativeProfitUsd := pnlProfit ([⟨"2025-01-01", none, "commission", 1, 7, 0, 0, 0, true⟩,
          (⟨"2025-01-03", none, "seeding", 1, 3, 0, 0, 0, false⟩ : TimelineEvent)].take 2)
        cumulativeRevenueUsd := pnlRevenue ([⟨"2025-01-01", none, "commission", 1, 7, 0, 0, 0, true⟩,
          (⟨"2025-01-03", none, "seeding", 1, 3, 0, 0, 0, false⟩ : TimelineEvent)].take 2)
        cumulativeExpensesUsd := pnlExpenses ([⟨"2025-01-01", none, "commission", 1, 7, 0, 0, 0, true⟩,
          (⟨"2025-01-03", none, "seeding", 1, 3, 0, 0, 0, false⟩ : TimelineEvent)].take 2) }) ∧
    ((buildTimeline sampleReportData).getLast (by decide)).cumulativeProfitUsd
        = pnlProfit (buildTimeline sampleReportData) := by
  refine ⟨C3_cumulative_totals.1 _ 1 (by decide), ?_⟩
  exact (C3_cumulative_totals.2.2 sampleReportData (by decide)).1

unseal List.merge List.mergeSort in
/-- C4 witness: `C4_timeline_sort_order` applied at the sample report with
every hypothesis discharged: a real date is left unchanged by `sort_date` and
the unknown sentinel sorts strictly below a string starting with `'2'`. -/
theorem C4_timeline_sort_order_witness :
    (buildTimeline sampleReportData).Pairwise (fun a b => pairLe (evKey a) (evKey b)) ∧
    sortDate "2025-06-01" = "2025-06-01" ∧
    sortDate "unknown" < String.mk ['2', '0', '2', '5'] := by
  refine ⟨(C4_timeline_sort_order sampleReportData).1, ?_, ?_⟩
  · exact (C4_timeline_sort_order sampleReportData).2.2.1 "2025-06-01" (by decide)
  · exact (C4_timeline_sort_order sampleReportData).2.2.2.1 '2' ['0', '2', '5'] (by decide)

/-! ## Stake account state machine (claims C6, C9)

Translated from `validator-accounting/src/positions.rs` (`is_locked`,
`determine_stake_state`, `parse_stake_account`, and the per-account match of
`discover_stake_accounts`).  `u64` is `ℕ` with the explicit `U64_MAX`
sentinel; pubkeys are raw byte lists; the unused `i64 unix_timestamp` and
`f64 warmup_cooldown_rate` fields are carried as their raw little-endian
byte values. -/

/-- `u64::MAX`, the "not set" sentinel for activation/deactivation epochs. -/
def U64_MAX : ℕ := 18446744073709551615

/-- Model of `positions.rs::Lockup`. -/
structure Lockup where
  unixTimestamp : ℕ
  epoch : ℕ
  custodian : List ℕ
deriving DecidableEq, Repr

/-- Model of `positions.rs::Authorized`. -/
structure Authorized where
  staker : List ℕ
  withdrawer : List ℕ
deriving DecidableEq, Repr

/-- Model of `positions.rs::Meta`. -/
structure Meta where
  rentExemptReserve : ℕ
  authorized : Authorized
  lockup : Lockup
deriving DecidableEq, Repr

/-- Model of `positions.rs::Delegation`. -/
structure Delegation where
  voterPubkey : List ℕ
  stake : ℕ
  activationEpoch : ℕ
  deactivationEpoch : ℕ
  warmupCooldownRate : ℕ
deriving DecidableEq, Repr

/-- Model of `positions.rs::StakeData`. -/
structure StakeData where
  delegation : Delegation
  creditsObserved : ℕ
deriving DecidableEq, Repr

/-- Model of `positions.rs::StakeState`. -/
inductive StakeState where
  | Activating
  | Active
  | Deactivating
  | Inactive
  | Unknown
deriving DecidableEq, Repr

/-- Translation of `positions.rs::is_locked`: the lockup is in force while its
epoch has not passed (the `unix_timestamp` lockup is ignored by the source). -/
def is_locked (meta : Meta) (currentEpoch : ℕ) : Bool :=
  meta.lockup.epoch > currentEpoch

/-- Translation of `positions.rs::determine_stake_state`. -/
def determine_stake_state (meta : Meta) (stake : StakeData) (currentEpoch : ℕ) :
    StakeState × Bool :=
  let delegation := stake.delegation
  let locked := is_locked meta currentEpoch
  if delegation.deactivationEpoch ≠ U64_MAX then
    if currentEpoch ≥ delegation.deactivationEpoch then (.Inactive, !locked)
    else (.Deactivating, false)
  else if delegation.activationEpoch = U64_MAX then (.Inactive, !locked)
  else if currentEpoch < delegation.activationEpoch then (.Activating, false)
  else if currentEpoch > delegation.activationEpoch then (.Active, false)
  else (.Activating, false)

/-- C6: the six cases of the variant-2 stake state machine, in the order the
code checks them: reached deactivation → Inactive and liquid iff no lockup
epoch exceeds the current epoch; pending deactivation → Deactivating, not
liquid; activation unset → Inactive, liquid-if-unlocked; activation in the
future → Activating, not liquid; activation passed → Active, not liquid;
activation equal to the current epoch → Activating, not liquid. -/
theorem C6_stake_state_machine (meta : Meta) (stake : StakeData) (cur : ℕ) :
    (stake.delegation.deactivationEpoch ≠ U64_MAX →
      stake.delegation.deactivationEpoch ≤ cur →
      determine_stake_state meta stake cur = (.Inactive, !(is_locked meta cur)) ∧
      ((determine_stake_state meta stake cur).2 = true ↔ meta.lockup.epoch ≤ cur)) ∧
    (stake.delegation.deactivationEpoch ≠ U64_MAX →
      cur < stake.delegation.deactivationEpoch →
      determine_stake_state meta stake cur = (.Deactivating, false)) ∧
    (stake.delegation.deactivationEpoch = U64_MAX →
      stake.delegation.activationEpoch = U64_MAX →
      determine_stake_state meta stake cur = (.Inactive, !(is_locked meta cur)) ∧
      ((determine_stake_state meta stake cur).2 = true ↔ meta.lockup.epoch ≤ cur)) ∧
    (stake.delegation.deactivationEpoch = U64_MAX →
      stake.delegation.activationEpoch ≠ U64_MAX →
      cur < stake.delegation.activationEpoch →
      determine_stake_state meta stake cur = (.Activating, false)) ∧
    (stake.delegation.deactivationEpoch = U64_MAX →
      stake.delegation.activationEpoch ≠ U64_MAX →
      stake.delegation.activationEpoch < cur →
      determine_stake_state meta stake cur = (.Active, false)) ∧
    (stake.delegation.deactivationEpoch = U64_MAX →
      stake.delegation.activationEpoch ≠ U64_MAX →
      cur = stake.delegation.activationEpoch →
      determine_stake_state meta stake cur = (.Activating, false)) := by
  have hliq : ∀ st : StakeState,
      ((st, !(is_locked meta cur)).2 = true ↔ meta.lockup.epoch ≤ cur) := by
    intro st
    simp [is_locked]
  refine ⟨?_, ?_, ?_, ?_, ?_, ?_⟩
  · intro h1 h2
    have he : determine_stake_state meta stake cur = (.Inactive, !(is_locked meta cur)) := by
      simp only [determine_stake_state]
      rw [if_pos h1, if_pos h2]
    exact ⟨he, he ▸ hliq _⟩
  · intro h1 h2
    simp only [determine_stake_state]
    rw [if_pos h1, if_neg (by omega)]
  · intro h1 h2
    have he : determine_stake_state meta stake cur = (.Inactive, !(is_locked meta cur)) := by
      simp only [determine_stake_state]
      rw [if_neg (by simp [h1]), if_pos h2]
    exact ⟨he, he ▸ hliq _⟩
  · intro h1 h2 h3
    simp only [determine_stake_state]
    rw [if_neg (by simp [h1]), if_neg h2, if_pos h3]
  · intro h1 h2 h3
    simp only [determine_stake_state]
    rw [if_neg (by simp [h1]), if_neg h2, if_neg (by omega), if_pos h3]
  · intro h1 h2 h3
    simp only [determine_stake_state]
    rw [if_neg (by simp [h1]), if_neg h2, if_neg (by omega), if_neg (by omega)]

/-- C6 witness: the spec scenario, via `C6_stake_state_machine` with every
hypothesis discharged: activation epoch equal to the current epoch and
deactivation unset gives `Activating`, not liquid. -/
theorem C6_stake_state_machine_witness :
    determine_stake_state ⟨0, ⟨[], []⟩, ⟨0, 0, []⟩⟩
      ⟨⟨[], 100, 5, U64_MAX, 0⟩, 0⟩ 5 = (.Activating, false) ∧
    determine_stake_state ⟨0, ⟨[], []⟩, ⟨0, 0, []⟩⟩
      ⟨⟨[], 100, 5, 7, 0⟩, 0⟩ 6 = (.Deactivating, false) := by
  refine ⟨(C6_stake_state_machine ⟨0, ⟨[], []⟩, ⟨0, 0, []⟩⟩
      ⟨⟨[], 100, 5, U64_MAX, 0⟩, 0⟩ 5).2.2.2.2.2 rfl (by decide) rfl,
    (C6_stake_state_machine ⟨0, ⟨[], []⟩, ⟨0, 0, []⟩⟩
      ⟨⟨[], 100, 5, 7, 0⟩, 0⟩ 6).2.1 (by decide) (by decide)⟩

/-- Little-endian integer value of `n` bytes of `data` starting at `off`
(bincode fixint encoding). -/
def leBytes (data : List ℕ) (off n : ℕ) : ℕ :=
  ((data.drop off).take n).reverse.foldl (fun a b => 256 * a + b) 0

/-- Model of `positions.rs::ParsedStakeInfo`. -/
structure ParsedStakeInfo where
  state : StakeState
  voter : Option (List ℕ)
  lockupEpoch : Option ℕ
  is_liquid : Bool
deriving DecidableEq, Repr

/-- bincode decode of `Meta` at byte offset `off` (fixed layout: 8-byte
rent-exempt reserve, two 32-byte authorities, 8-byte lockup timestamp,
8-byte lockup epoch, 32-byte custodian; 120 bytes total). -/
def decodeMeta (data : List ℕ) (off : ℕ) : Meta :=
  { rentExemptReserve := leBytes data off 8
    authorized := ⟨(data.drop (off + 8)).take 32, (data.drop (off + 40)).take 32⟩
    lockup := ⟨leBytes data (off + 72) 8, leBytes data (off + 80) 8,
      (data.drop (off + 88)).take 32⟩ }

/-- bincode decode of `StakeData` at byte offset `off` (32-byte voter, 8-byte
stake, 8-byte activation epoch, 8-byte deactivation epoch, 8-byte warmup
rate, 8-byte credits; 72 bytes total). -/
def decodeStakeData (data : List ℕ) (off : ℕ) : StakeData :=
  { delegation :=
      { voterPubkey := (data.drop off).take 32
        stake := leBytes data (off + 32) 8
        activationEpoch := leBytes data (off + 40) 8
        deactivationEpoch := leBytes data (off + 48) 8
        warmupCooldownRate := leBytes data (off + 56) 8 }
    creditsObserved := leBytes data (off + 64) 8 }

/-- Translation of `positions.rs::parse_stake_account`: a 4-byte little-endian
variant discriminant, then the fixed-offset decode; a record too short for the
discriminant or for the bincode payload, or a discriminant outside 0-3, is a
hard failure for this account. -/
def parse_stake_account (data : List ℕ) (currentEpoch : ℕ) :
    Except String ParsedStakeInfo :=
  if data.length < 4 then .error "Stake account data too short"
  else
    let discriminant := leBytes data 0 4
    if discriminant = 0 then .ok ⟨.Unknown, none, none, false⟩
    else if discriminant = 1 then
      if data.length < 4 + 120 then .error "Failed to deserialize Initialized stake state"
      else
        let meta := decodeMeta data 4
        .ok ⟨.Inactive, none,
          if meta.lockup.epoch > 0 then some meta.lockup.epoch else none,
          !(is_locked meta currentEpoch)⟩
    else if discriminant = 2 then
      if data.length < 4 + 120 then .error "Failed to deserialize Stake state meta"
      else
        let meta := decodeMeta data 4
        if data.length < 124 + 8 then .error "Stake account data too short for stake data"
        else if data.length < 124 + 72 then .error "Failed to deserialize Stake state delegation"
        else
          let stakeData := decodeStakeData data 124
          let sl := determine_stake_state meta stakeData currentEpoch
          .ok ⟨sl.1, some stakeData.delegation.voterPubkey,
            if meta.lockup.epoch > 0 then some meta.lockup.epoch else none, sl.2⟩
    else if discriminant = 3 then .ok ⟨.Unknown, none, none, false⟩
    else .error "Unknown stake state discriminant"

/-- Model of `positions.rs::StakeAccountInfo`. -/
structure StakeAccountInfo where
  account : String
  balanceLamports : ℕ
  state : StakeState
  voter : Option (List ℕ)
  lockupEpoch : Option ℕ
  is_liquid : Bool
  snapshotSlot : ℕ
deriving DecidableEq, Repr

/-- The per-account loop of `positions.rs::discover_stake_accounts`: a parsed
account keeps its decoded state; a record whose decode failed is logged and
kept in the batch with state `Unknown` and conservatively not liquid. -/
def discover_stake_accounts_loop (accounts : List (String × ℕ × List ℕ))
    (currentEpoch : ℕ) (snapshotSlot : ℕ) : List StakeAccountInfo :=
  accounts.map (fun acc =>
    match parse_stake_account acc.2.2 currentEpoch with
    | .ok info => ⟨acc.1, acc.2.1, info.state, info.voter, info.lockupEpoch,
        info.is_liquid, snapshotSlot⟩
    | .error _ => ⟨acc.1, acc.2.1, .Unknown, none, none, false, snapshotSlot⟩)

/-- C9 counterexample (to the claim as stated): one bad record in a batch is
a hard decode failure, and the caller does continue — but the failed record is
not excluded from the aggregate: it is included with state `Unknown`, balance
and all (the code's own comment says "include as unknown state"). -/
theorem C9_counterexample :
    (parse_stake_account [9, 0, 0, 0] 100).isOk = false ∧
    discover_stake_accounts_loop
        [("good", 5, [0, 0, 0, 0]), ("bad", 7, [9, 0, 0, 0])] 100 1
      = [⟨"good", 5, .Unknown, none, none, false, 1⟩,
         ⟨"bad", 7, .Unknown, none, none, false, 1⟩] := by
  exact ⟨by decide, by decide⟩

/-- C9 (amended): a record shorter than the discriminant, or with a
discriminant outside 0-3, is a hard decode failure for that single account;
the batch loop continues over every record (output length equals input
length), decoding the good records and including each failed record with
state `Unknown`, no voter/lockup, and conservatively not liquid — rather than
excluding it. -/
theorem C9_decode_failure_isolated :
    (∀ (data : List ℕ) (cur : ℕ), data.length < 4 →
      (parse_stake_account data cur).isOk = false) ∧
    (∀ (data : List ℕ) (cur : ℕ), 4 ≤ data.length →
      leBytes data 0 4 ≠ 0 → leBytes data 0 4 ≠ 1 →
      leBytes data 0 4 ≠ 2 → leBytes data 0 4 ≠ 3 →
      (parse_stake_account data cur).isOk = false) ∧
    (∀ (accounts : List (String × ℕ × List ℕ)) (cur slot : ℕ),
      (discover_stake_accounts_loop accounts cur slot).length = accounts.length) ∧
    (∀ (accounts : List (String × ℕ × List ℕ)) (cur slot i : ℕ),
      i < accounts.length →
      ∀ e, parse_stake_account (accounts.getD i ("", 0, [])).2.2 cur = .error e →
      (discover_stake_accounts_loop accounts cur slot).getD i
          ⟨"", 0, .Unknown, none, none, false, 0⟩
        = ⟨(accounts.getD i ("", 0, [])).1, (accounts.getD i ("", 0, [])).2.1,
           .Unknown, none, none, false, slot⟩) ∧
    (∀ (accounts : List (String × ℕ × List ℕ)) (cur slot i : ℕ),
      i < accounts.length →
      ∀ info, parse_stake_account (accounts.getD i ("", 0, [])).2.2 cur = .ok info →
      (discover_stake_accounts_loop accounts cur slot).getD i
          ⟨"", 0, .Unknown, none, none, false, 0⟩
        = ⟨(accounts.getD i ("", 0, [])).1, (accounts.getD i ("", 0, [])).2.1,
           info.state, info.voter, info.lockupEpoch, info.is_liquid, slot⟩) := by
  refine ⟨?_, ?_, ?_, ?_, ?_⟩
  · intro data cur h
    simp only [parse_stake_account, if_pos h]
    rfl
  · intro data cur h h0 h1 h2 h3
    simp only [parse_stake_account, Nat.not_lt.mpr h, if_false, h0, h1, h2, h3, if_neg]
    rfl
  · intro accounts cur slot
    simp [discover_stake_accounts_loop]
  · intro accounts cur slot i hi e hp
    have h1 : (accounts.getD i ("", 0, [])) = accounts[i] := by
      rw [List.getD_eq_getElem?_getD, List.getElem?_eq_getElem hi]
      rfl
    rw [h1] at hp ⊢
    rw [List.getD_eq_getElem?_getD, discover_stake_accounts_loop, List.getElem?_map,
      List.getElem?_eq_getElem hi]
    simp only [Option.map_some', Option.getD_some, hp]
  · intro accounts cur slot i hi info hp
    have h1 : (accounts.getD i ("", 0, [])) = accounts[i] := by
      rw [List.getD_eq_getElem?_getD, List.getElem?_eq_getElem hi]
      rfl
    rw [h1] at hp ⊢
    rw [List.getD_eq_getElem?_getD, discover_stake_accounts_loop, List.getElem?_map,
      List.getElem?_eq_getElem hi]
    simp only [Option.map_some', Option.getD_some, hp]

/-- C9 witness: `C9_decode_failure_isolated` applied at a concrete batch with
every hypothesis discharged: the record `[9,0,0,0]` (discriminant 9) fails to
decode, and at index 1 of the batch the loop emits the conservative
`Unknown`/not-liquid record for it. -/
theorem C9_decode_failure_isolated_witness :
    (parse_stake_account [9, 0, 0, 0] 100).isOk = false ∧
    (discover_stake_accounts_loop
        [("good", 5, [0, 0, 0, 0]), ("bad", 7, [9, 0, 0, 0])] 100 1).getD 1
        ⟨"", 0, .Unknown, none, none, false, 0⟩
      = ⟨"bad", 7, .Unknown, none, none, false, 1⟩ := by
  constructor
  · exact C9_decode_failure_isolated.2.1 [9, 0, 0, 0] 100 (by decide)
      (by decide) (by decide) (by decide) (by decide)
  · exact C9_decode_failure_isolated.2.2.2.1
      [("good", 5, [0, 0, 0, 0]), ("bad", 7, [9, 0, 0, 0])] 100 1 1 (by decide)
      "Unknown stake state discriminant" rfl

/-! ## Transfer categorizer (claim C8)

Translated from `bp-web/src/financials/categorize.rs` (static address sets,
`is_solana_foundation`/`is_jito`/`is_exchange`, `categorize_transfers`) and
`bp-web/src/financials/config.rs::ValidatorConfig::is_our_account`. -/

/-- The static Solana-Foundation address set (`SF_ADDRESSES`). -/
def SF_ADDRESSES : List String :=
  ["mpa4abUkjQoAvPzREkh5Mo75hZhPFQ2FSH6w7dWKuQ5",
   "7K8DVxtNJGnMtUY1CQJT5jcs8sFGSZTDiG7kowvFpECh",
   "DRpbCBMxVnDK7maPM5tGv6MvB3v1sRMC86PZ8okm21hy",
   "4ZJhPQAgUseCsWhKvJLTmmRRUV74fdoTpQLNfKoHtFSP",
   "DtZWL3BPKa5hw7yQYvaFR29PcXThpLHVU2XAAZrcLiSe"]

/-- The static Jito/MEV-program address set (`JITO_ADDRESSES`). -/
def JITO_ADDRESSES : List String :=
  ["T1pyyaTNZsKv2WcRAB8oVnk93mLJw2XzjtVYqCsaHqt",
   "4R3gSG8BpU4t19KYj8CfnbtRpnT8gtk4dvTHxVRwc2r7",
   "8F4jGUmxF36vQ6yabnsxX6AQVXdKBhs8kGSUuRKSg8Xt",
   "96gYZGLnJYVFmbjzopPSU6QiEV5fGqZNyN9nmNhvrZU5",
   "HFqU5x63VTqvQss8hp11i4wVV8bD44PvwucfZ2bU7gRe",
   "Cw8CFyM9FkoMi7K7Crf6HNQqf4uEMzpKw6QNghXLvLkY",
   "ADaUMid9yfUytqMBgopwjb2DTLSokTSzL1zt6iGPaS49",
   "DfXygSm4jCyNCybVYYK6DwvWqjKee8pbDmJGcLWNDXjh",
   "ADuUkR4vqLUMWXxW9gh6D6L8pMSawimctcNZ5pGwDcEt",
   "DttWaMuVvTiduZRnguLF7jNxTgiMBZ1hyAumKUiL2KRL",
   "3AVi9Tg9Uo68tJfuvoKvqKNWKkC5wPdSSdeBnizKZ6jT"]

/-- The static exchange deposit address set (`EXCHANGE_ADDRESSES`). -/
def EXCHANGE_ADDRESSES : List String :=
  ["H8sMJSCQxfKiFTCfDR3DUMLPwcRbM61LGFJ8N4dK3WjS",
   "2AQdpHJ2JpcEgPiATUXjQxA8QmafFegfQwSLWSprPicm",
   "5tzFkiKscXHK5ZXCGbXZxdw7gTjjD1mBwuoFbhUvuAi9"]

/-- `categorize.rs::is_solana_foundation`. -/
def is_solana_foundation (addr : String) : Bool := SF_ADDRESSES.contains addr

/-- `categorize.rs::is_jito`. -/
def is_jito (addr : String) : Bool := JITO_ADDRESSES.contains addr

/-- `categorize.rs::is_exchange`. -/
def is_exchange (addr : String) : Bool := EXCHANGE_ADDRESSES.contains addr

/-- Model of `config.rs::ValidatorConfig` (string addresses; `ourAccounts` is
the vote/identity/withdraw-authority set, deliberately excluding the personal
wallet). -/
structure ValidatorConfig where
  voteAccount : String
  identity : String
  withdrawAuthority : String
  personalWallet : String
  bootstrapDate : String
  sfdpAcceptanceDate : Option String
  doublezeroDepositAccount : Option String
  ourAccounts : List String

/-- `config.rs::ValidatorConfig::is_our_account`. -/
def is_our_account (cfg : ValidatorConfig) (address : String) : Bool :=
  cfg.ourAccounts.contains address

/-- The seven buckets of `CategorizedTransfers`. -/
inductive Bucket where
  | seeding
  | sfdpReimbursements
  | mevDeposits
  | doublezeroPayments
  | voteFunding
  | withdrawals
  | other
deriving DecidableEq, Repr

/-- Rule 1 of `categorize_transfers`: a DoubleZero prepayment is an outgoing
transfer from one of our accounts to the configured deposit account. -/
def isDzDeposit (cfg : ValidatorConfig) (t : SolTransfer) : Bool :=
  match cfg.doublezeroDepositAccount with
  | some dz => t.toAddress == dz && is_our_account cfg t.fromAddress
  | none => false

/-- The body of the `for t in transfers` loop of
`categorize.rs::categorize_transfers`, as a per-transfer function: the bucket
the transfer is pushed to (with the relabelled clone for DZ deposits), or
`none` when the transfer is dropped. -/
def categorizeOne (cfg : ValidatorConfig) (t : SolTransfer) :
    Option (Bucket × SolTransfer) :=
  if isDzDeposit cfg t then
    some (.doublezeroPayments, { t with toLabel := "DoubleZero Deposit" })
  else if is_our_account cfg t.toAddress then
    if t.fromAddress == cfg.personalWallet then some (.seeding, t)
    else if is_solana_foundation t.fromAddress then some (.sfdpReimbursements, t)
    else if is_jito t.fromAddress then some (.mevDeposits, t)
    else if is_our_account cfg t.fromAddress then some (.voteFunding, t)
    else some (.other, t)
  else if is_our_account cfg t.fromAddress then
    if is_exchange t.toAddress || t.toAddress == cfg.personalWallet then
      some (.withdrawals, t)
    else if is_our_account cfg t.toAddress then some (.voteFunding, t)
    else some (.other, t)
  else none

/-- The bucket tag as a function of the two endpoint addresses alone. -/
def categorizeTag (cfg : ValidatorConfig) (fromAddr toAddr : String) : Option Bucket :=
  if (match cfg.doublezeroDepositAccount with
      | some dz => toAddr == dz && is_our_account cfg fromAddr
      | none => false) then
    some .doublezeroPayments
  else if is_our_account cfg toAddr then
    if fromAddr == cfg.personalWallet then some .seeding
    else if is_solana_foundation fromAddr then some .sfdpReimbursements
    else if is_jito fromAddr then some .mevDeposits
    else if is_our_account cfg fromAddr then some .voteFunding
    else some .other
  else if is_our_account cfg fromAddr then
    if is_exchange toAddr || toAddr == cfg.personalWallet then some .withdrawals
    else if is_our_account cfg toAddr then some .voteFunding
    else some .other
  else none

/-- One fold step of `categorize_transfers`. -/
def categorizeStep (cfg : ValidatorConfig) (cat : CategorizedTransfers)
    (t : SolTransfer) : CategorizedTransfers :=
  match categorizeOne cfg t with
  | some (b, t') =>
    match b with
    | .seeding => { cat with seeding := cat.seeding ++ [t'] }
    | .sfdpReimbursements =>
      { cat with sfdpReimbursements := cat.sfdpReimbursements ++ [t'] }
    | .mevDeposits => { cat with mevDeposits := cat.mevDeposits ++ [t'] }
    | .doublezeroPayments =>
      { cat with doublezeroPayments := cat.doublezeroPayments ++ [t'] }
    | .voteFunding => { cat with voteFunding := cat.voteFunding ++ [t'] }
    | .withdrawals => { cat with withdrawals := cat.withdrawals ++ [t'] }
    | .other => { cat with other := cat.other ++ [t'] }
  | none => cat

/-- Translation of `categorize.rs::categorize_transfers`. -/
def categorize_transfers (transfers : List SolTransfer) (cfg : ValidatorConfig) :
    CategorizedTransfers :=
  transfers.foldl (categorizeStep cfg) emptyCategorized

/-- Projection of a bucket from the record. -/
def bucketGet (cat : CategorizedTransfers) : Bucket → List SolTransfer
  | .seeding => cat.seeding
  | .sfdpReimbursements => cat.sfdpReimbursements
  | .mevDeposits => cat.mevDeposits
  | .doublezeroPayments => cat.doublezeroPayments
  | .voteFunding => cat.voteFunding
  | .withdrawals => cat.withdrawals
  | .other => cat.other

theorem bucketGet_categorizeStep (cfg : ValidatorConfig)
    (cat : CategorizedTransfers) (t : SolTransfer) (b : Bucket) :
    bucketGet (categorizeStep cfg cat t) b
      = bucketGet cat b ++ (match categorizeOne cfg t with
          | some (b', t') => if b' = b then [t'] else []
          | none => []) := by
  unfold categorizeStep
  rcases h : categorizeOne cfg t with _ | ⟨b', t'⟩
  · simp
  · cases b' <;> cases b <;> simp [bucketGet]

theorem categorize_fold_bucketGet (cfg : ValidatorConfig) (ts : List SolTransfer) :
    ∀ (cat : CategorizedTransfers) (b : Bucket),
    bucketGet (ts.foldl (categorizeStep cfg) cat) b
      = bucketGet cat b ++ ts.filterMap (fun t =>
          match categorizeOne cfg t with
          | some (b', t') => if b' = b then some t' else none
          | none => none) := by
  induction ts with
  | nil => intro cat b; simp
  | cons t rest ih =>
    intro cat b
    rw [List.foldl_cons, ih, List.filterMap_cons]
    rcases h : categorizeOne cfg t with _ | ⟨b', t'⟩
    · rw [bucketGet_categorizeStep, h]
      simp
    · rw [bucketGet_categorizeStep, h]
      by_cases hb : b' = b
      · simp [hb, List.append_assoc]
      · simp [hb]

theorem categorizeOne_map_fst (cfg : ValidatorConfig) (t : SolTransfer) :
    (categorizeOne cfg t).map (fun x => x.1)
      = categorizeTag cfg t.fromAddress t.toAddress := by
  unfold categorizeOne categorizeTag isDzDeposit
  split_ifs <;> rfl

/-- C8: `categorize_transfers` partitions its input: each bucket of the output
is exactly the input subsequence the per-transfer rule assigns to it (so every
transfer lands in exactly one bucket and is never duplicated); a transfer is
placed in no bucket at all exactly when neither its from-address nor its
to-address is an operator account; and the bucket a transfer is assigned is a
pure function of its two endpoint addresses, the static known-address tables
and the configured account set. -/
theorem C8_categorize_partition (cfg : ValidatorConfig) (ts : List SolTransfer) :
    (∀ b : Bucket, bucketGet (categorize_transfers ts cfg) b
      = ts.filterMap (fun t =>
          match categorizeOne cfg t with
          | some (b', t') => if b' = b then some t' else none
          | none => none)) ∧
    (∀ t : SolTransfer, categorizeOne cfg t = none ↔
      (is_our_account cfg t.toAddress = false ∧
       is_our_account cfg t.fromAddress = false)) ∧
    (∀ t : SolTransfer, (categorizeOne cfg t).map (fun x => x.1)
      = categorizeTag cfg t.fromAddress t.toAddress) := by
  refine ⟨?_, ?_, categorizeOne_map_fst cfg⟩
  · intro b
    rw [categorize_transfers, categorize_fold_bucketGet]
    simp [bucketGet, emptyCategorized]
    cases b <;> rfl
  · intro t
    unfold categorizeOne
    by_cases hdz : isDzDeposit cfg t = true
    · rw [if_pos hdz]
      have hfrom : is_our_account cfg t.fromAddress = true := by
        unfold isDzDeposit at hdz
        rcases hopt : cfg.doublezeroDepositAccount with _ | dz <;> rw [hopt] at hdz
        · simp at hdz
        · simp only [Bool.and_eq_true] at hdz
          exact hdz.2
      simp [hfrom]
    · rw [if_neg hdz]
      by_cases hto : is_our_account cfg t.toAddress = true
      · rw [if_pos hto]
        split_ifs <;> simp [hto]
      · rw [if_neg hto]
        by_cases hfrom : is_our_account cfg t.fromAddress = true
        · rw [if_pos hfrom]
          split_ifs <;> simp [hfrom]
        · rw [if_neg hfrom]
          simp only [Bool.not_eq_true] at hto hfrom
          simp [hto, hfrom]

end BlockParliament
